import Mathlib

/-!
# Task model of `fstaskparser`

A shallow embedding of the in-memory task model of `pkg/fstaskparser`
(`methods.go`), of its version-gated readers (`testgroups.go`) and of the test
files its writer produces (`store.go`), together with proofs about them.

Modelling conventions:

* Go `int` is embedded as `Int`.  The only arithmetic the embedded methods do
  is `mex++`, and `mex` never exceeds the length of the scanned slice plus one,
  so 64-bit overflow cannot occur.
* A Go `map[K]V` is a partial function `K → Option V`; reading a missing key
  yields the zero value of `V`, as in Go.
* Go slices are embedded as lists, taken as values.  The one place where the
  program writes through slices that callers may share, the group lists in
  `SwapTestsWithIDs`, is embedded a second time on backing arrays
  (`GroupMemory`, `SwapTestsWithIDsMem`).
* A call of `log.Fatalf` ends the process; a method that may call it returns
  `Option`, where `none` stands for the fatal exit.
-/

namespace Fstaskparser

/-- A Go `[]byte`. -/
abbrev Bytes := List UInt8

/-- A Go `map[K]V`: a partial function from keys to values. -/
abbrev GoMap (K V : Type) := K → Option V

namespace GoMap

variable {K V : Type}

/-- The map literal without entries, `make(map[K]V)`. -/
def empty : GoMap K V := fun _ => none

/-- The Go statement `m[k] = v`. -/
def set [DecidableEq K] (m : GoMap K V) (k : K) (v : V) : GoMap K V :=
  fun x => if x = k then some v else m x

/-- The Go statement `delete(m, k)`. -/
def delete [DecidableEq K] (m : GoMap K V) (k : K) : GoMap K V :=
  fun x => if x = k then none else m x

/-- The Go expression `m[k]` used as a value: the zero value on a missing key. -/
def getD (m : GoMap K V) (k : K) (zero : V) : V := (m k).getD zero

/-- The second result of the Go expression `v, ok := m[k]`. -/
def has (m : GoMap K V) (k : K) : Bool := (m k).isSome

end GoMap

/-- Modelled from the spec: the declaration of struct `test` is not among the
sources; its fields are the ones `AddTest`, `SwapTestsWithIDs` and `Store` use. -/
structure test where
  ID : Int
  Input : Bytes
  Answer : Bytes
  Name : Option String
  deriving DecidableEq

/-- Modelled from the spec: the declaration of struct `example` is not among
the sources; its fields are the ones `GetExamples` and `AddExample` use. -/
structure example_ where
  Input : Bytes
  Output : Bytes
  MdNote : Bytes
  Name : Option String
  deriving DecidableEq

/-- The struct `MarkdownStatement` of `methods.go` (`mDStatement` converts to it
field by field). -/
structure MarkdownStatement where
  Language : Option String
  Story : String
  Input : String
  Output : String
  Notes : Option String
  Scoring : Option String
  deriving DecidableEq

/-- Modelled from the spec: the declaration of struct `asset` is not among the
sources; its fields are the ones `GetTaskIllustrationImage` uses. -/
structure asset where
  RelativePath : String
  Content : Bytes
  deriving DecidableEq

/-- Modelled from the spec: the declaration of struct `Task` is not among the
sources; its fields are the ones the methods of `methods.go` and `store.go`
read and write, with the types those uses fix. -/
structure Task where
  tests : List test
  testIDToFilename : GoMap Int String
  testFilenameToID : GoMap String Int
  testGroupIDs : List Int
  isTGroupPublic : GoMap Int Bool
  tGroupPoints : GoMap Int Int
  tGroupTestIDs : GoMap Int (List Int)
  tGroupToStMap : GoMap Int Int
  visibleInputSubtasks : List Int
  pdfStatements : GoMap String Bytes
  mdStatements : List MarkdownStatement
  examples : List example_
  assets : List asset
  illstrImgFname : String
  taskName : String
  problemTags : List String
  problemAuthors : List String
  originOlympiad : String
  difficultyOneToFive : Int
  memoryMegabytes : Int
  cpuTimeSeconds : Float
  OriginNotes : GoMap String String

/-- A task without tests, groups, statements or metadata. -/
def Task.empty : Task where
  tests := []
  testIDToFilename := GoMap.empty
  testFilenameToID := GoMap.empty
  testGroupIDs := []
  isTGroupPublic := GoMap.empty
  tGroupPoints := GoMap.empty
  tGroupTestIDs := GoMap.empty
  tGroupToStMap := GoMap.empty
  visibleInputSubtasks := []
  pdfStatements := GoMap.empty
  mdStatements := []
  examples := []
  assets := []
  illstrImgFname := ""
  taskName := ""
  problemTags := []
  problemAuthors := []
  originOlympiad := ""
  difficultyOneToFive := 0
  memoryMegabytes := 0
  cpuTimeSeconds := 0
  OriginNotes := GoMap.empty

/-! ## Identifier allocation -/

/-- One run of the inner `for i` loop of `AddTest` and of
`testGroupMexPositiveID` over the identifiers `ids`, started with the current
values of `found` and `mex`: every element equal to the current `mex` sets
`found` and increments `mex`. -/
def scanPass : List Int → Bool → Int → Bool × Int
  | [], found, mex => (found, mex)
  | x :: xs, found, mex =>
    if x = mex then scanPass xs true (mex + 1) else scanPass xs found mex

/-- How many elements of `ids` are at least `mex`; the outer loop strictly
decreases it with every pass that finds something. -/
def pending (ids : List Int) (mex : Int) : Nat :=
  ids.countP (fun x => decide (mex ≤ x))

/-- A run of the inner loop never decreases `mex`. -/
theorem scanPass_le (ids : List Int) (found : Bool) (mex : Int) :
    mex ≤ (scanPass ids found mex).2 := by
  induction ids generalizing found mex with
  | nil => simp [scanPass]
  | cons x xs ih =>
    unfold scanPass
    split
    · have := ih true (mex + 1); omega
    · exact ih found mex

/-- A run of the inner loop that sets `found` has met an element between the old
and the new value of `mex`. -/
theorem scanPass_found (ids : List Int) (found : Bool) (mex : Int)
    (h : (scanPass ids found mex).1 = true) :
    found = true ∨ ∃ x ∈ ids, mex ≤ x ∧ x < (scanPass ids found mex).2 := by
  induction ids generalizing found mex with
  | nil => left; simpa [scanPass] using h
  | cons x xs ih =>
    unfold scanPass at h ⊢
    split
    · next hx =>
      right
      refine ⟨x, List.mem_cons_self _ _, by omega, ?_⟩
      have := scanPass_le xs true (mex + 1)
      omega
    · next hx =>
      rw [if_neg hx] at h
      rcases ih found mex h with hf | ⟨y, hy, h1, h2⟩
      · exact Or.inl hf
      · exact Or.inr ⟨y, List.mem_cons_of_mem _ hy, h1, h2⟩

/-- Raising `mex` past an element of `ids` strictly lowers `pending`. -/
theorem pending_lt (ids : List Int) (m m' : Int)
    (h : ∃ x ∈ ids, m ≤ x ∧ x < m') : pending ids m' < pending ids m := by
  obtain ⟨x, hx, h1, h2⟩ := h
  unfold pending
  induction ids with
  | nil => simp at hx
  | cons y ys ih =>
    have hmono : List.countP (fun x => decide (m' ≤ x)) ys
        ≤ List.countP (fun x => decide (m ≤ x)) ys := by
      apply List.countP_mono_left
      intro z _ hz
      simp only [decide_eq_true_eq] at hz ⊢
      omega
    rw [List.countP_cons, List.countP_cons]
    rcases List.mem_cons.1 hx with rfl | hx'
    · have e1 : decide (m' ≤ x) = false := by simp; omega
      have e2 : decide (m ≤ x) = true := by simp; omega
      simp only [e1, e2]
      simp
      omega
    · have := ih hx'
      by_cases c : m' ≤ y
      · have c2 : m ≤ y := by omega
        simp only [c, c2, decide_True, if_true]
        omega
      · by_cases c2 : m ≤ y
        · simp only [c, c2, decide_True, decide_False, if_true]
          simp
          omega
        · simp only [c, c2, decide_False]
          simpa using this

set_option linter.unusedVariables false in
/-- The outer `for found` loop of `AddTest` and of `testGroupMexPositiveID`,
entered with the current value of `mex`: it repeats the inner loop until a run
finds nothing. -/
def mexLoop (ids : List Int) (mex : Int) : Int :=
  if h : (scanPass ids false mex).1 = true then
    mexLoop ids (scanPass ids false mex).2
  else
    (scanPass ids false mex).2
termination_by pending ids mex
decreasing_by
  rcases scanPass_found ids false mex h with c | c
  · exact absurd c (by decide)
  · exact pending_lt ids mex _ c

/-! ## The mutation and query API of `methods.go` -/

/-- The body of the two relabelling loops of `SwapTestsWithIDs`:
`if x == id1 { x = id2 } else if x == id2 { x = id1 }`. -/
def swapID (id1 id2 x : Int) : Int :=
  if x = id1 then id2 else if x = id2 then id1 else x

/-- The method `Task.SwapTestsWithIDs`: relabels the tests, moves the entries
of both filename indexes and relabels the members of every test group.  The
group lists are taken as values here, which is what the method does when no two
of them share a backing array; `SwapTestsWithIDsMem` is the method on group
lists held in memory. -/
def SwapTestsWithIDs (t : Task) (id1 id2 : Int) : Task :=
  let id1Filename := t.testIDToFilename.getD id1 ""
  let id1HasFilename := t.testIDToFilename.has id1
  let id2Filename := t.testIDToFilename.getD id2 ""
  let id2HasFilename := t.testIDToFilename.has id2
  let tests := t.tests.map (fun x => { x with ID := swapID id1 id2 x.ID })
  let f2i := (t.testFilenameToID.delete id1Filename).delete id2Filename
  let i2f := (t.testIDToFilename.delete id1).delete id2
  let f2i := if id1HasFilename then f2i.set id1Filename id2 else f2i
  let i2f := if id1HasFilename then i2f.set id2 id1Filename else i2f
  let f2i := if id2HasFilename then f2i.set id2Filename id1 else f2i
  let i2f := if id2HasFilename then i2f.set id1 id2Filename else i2f
  let groups : GoMap Int (List Int) :=
    fun k => (t.tGroupTestIDs k).map (List.map (swapID id1 id2))
  { t with
    tests := tests
    testIDToFilename := i2f
    testFilenameToID := f2i
    tGroupTestIDs := groups }

/-- The identifiers of the tests, in the order of the test sequence. -/
def Task.testIDs (t : Task) : List Int := t.tests.map (fun x => x.ID)

/-- The method `Task.AddTest`: returns the new identifier and the task after
the call. -/
def AddTest (t : Task) (input answer : Bytes) : Int × Task :=
  let mex := mexLoop t.testIDs 1
  (mex, { t with
    tests := t.tests ++ [{ ID := mex, Input := input, Answer := answer, Name := none }] })

/-- The method `Task.AssignFilenameToTest`; `none` is the exit through
`log.Fatalf`. -/
def AssignFilenameToTest (t : Task) (filename : String) (testID : Int) : Option Task :=
  let ok1 := t.testIDToFilename.has testID
  let ok2 := t.testFilenameToID.has filename
  if ok1 || ok2 then none
  else some { t with
    testIDToFilename := t.testIDToFilename.set testID filename
    testFilenameToID := t.testFilenameToID.set filename testID }

/-- The struct `TestGroupInfo` of `methods.go`. -/
structure TestGroupInfo where
  GroupID : Int
  Points : Int
  Public : Bool
  TestIDs : List Int
  Subtask : Int
  deriving DecidableEq

/-- The method `Task.GetInfoOnTestGroup`; a missing map entry reads as the zero
value of its type. -/
def GetInfoOnTestGroup (t : Task) (id : Int) : TestGroupInfo where
  GroupID := id
  Points := t.tGroupPoints.getD id 0
  Public := t.isTGroupPublic.getD id false
  TestIDs := t.tGroupTestIDs.getD id []
  Subtask := t.tGroupToStMap.getD id 0

/-- The method `Task.GetTestGroupIDs`. -/
def GetTestGroupIDs (t : Task) : List Int := t.testGroupIDs

/-- The method `Task.GetTestFilenameFromID`. -/
def GetTestFilenameFromID (t : Task) (testID : Int) : String :=
  match t.testIDToFilename testID with
  | none => ""
  | some filename => filename

/-- The method `Task.testGroupWithIDExists`. -/
def testGroupWithIDExists (t : Task) (id : Int) : Bool :=
  t.testGroupIDs.any (fun x => decide (x = id))

/-- The method `Task.AddTestGroupWithID`: the task after the call and the
returned error (`none` for `nil`). -/
def AddTestGroupWithID (t : Task) (groupID points : Int) (pub : Bool)
    (testIDs : List Int) (subtask : Int) : Task × Option String :=
  if testGroupWithIDExists t groupID then
    (t, some ("test group with ID " ++ toString groupID ++ " already exists"))
  else
    ({ t with
      testGroupIDs := t.testGroupIDs ++ [groupID]
      isTGroupPublic := t.isTGroupPublic.set groupID pub
      tGroupPoints := t.tGroupPoints.set groupID points
      tGroupTestIDs := t.tGroupTestIDs.set groupID testIDs
      tGroupToStMap := t.tGroupToStMap.set groupID subtask }, none)

/-- The method `Task.testGroupMexPositiveID`. -/
def testGroupMexPositiveID (t : Task) : Int := mexLoop t.testGroupIDs 1

/-- The method `Task.AddTestGroup`; `none` is the exit through `log.Fatalf`. -/
def AddTestGroup (t : Task) (points : Int) (pub : Bool) (testIDs : List Int)
    (subtask : Int) : Option Task :=
  match AddTestGroupWithID t (testGroupMexPositiveID t) points pub testIDs subtask with
  | (t', none) => some t'
  | (_, some _) => none

/-- The method `Task.AddVisibleInputSubtask`: the task after the call and the
returned error (`none` for `nil`).  `sort.Ints` is embedded as insertion sort on
`≤`; the ascending rearrangement of a list of integers is unique, so every
correct sort returns the same list. -/
def AddVisibleInputSubtask (t : Task) (subtask : Int) : Task × Option String :=
  let alreadyAdded := t.visibleInputSubtasks.any (fun x => decide (x = subtask))
  if alreadyAdded then
    (t, some ("subtask " ++ toString subtask ++ " already added"))
  else
    ({ t with
      visibleInputSubtasks :=
        (t.visibleInputSubtasks ++ [subtask]).insertionSort (fun a b => a ≤ b) }, none)

/-- The method `Task.GetVisibleInputSubtasks`. -/
def GetVisibleInputSubtasks (t : Task) : List Int := t.visibleInputSubtasks

/-- The method `Task.GetPDFStatement`: the statement, or the returned error. -/
def GetPDFStatement (t : Task) (lang : String) : Except String Bytes :=
  match t.pdfStatements lang with
  | none => .error ("pdf statement for language " ++ lang ++ " not found")
  | some statement => .ok statement

/-- The method `Task.AddPDFStatement`: the task after the call and the returned
error (`none` for `nil`). -/
def AddPDFStatement (t : Task) (lang : String) (statement : Bytes) : Task × Option String :=
  if t.pdfStatements.has lang then
    (t, some ("pdf statement for language " ++ lang ++ " already exists"))
  else
    ({ t with pdfStatements := t.pdfStatements.set lang statement }, none)

/-- A sequence of `AddPDFStatement` calls, one per element of `adds`, whatever
each of them returns. -/
def addPDFStatements (t : Task) (adds : List (String × Bytes)) : Task :=
  adds.foldl (fun acc p => (AddPDFStatement acc p.1 p.2).1) t

/-! ## The version-gated readers of `testgroups.go`

Two collaborators of the readers are not part of `testgroups.go` and are taken
as parameters: `cmp` stands for `getCmpSemVersionsResult` and `unmarshal` for
`toml.Unmarshal` into the reader's own struct, whose result is the decoded
`test_groups` array.  Log output is not modelled.  A `nil` map and a `nil`
slice are embedded as the empty map and the empty list. -/

/-- The local struct `testGroupInfo` of a reader: the field `group_id` and the
one attribute that reader decodes. -/
structure testGroupInfo (α : Type) where
  GroupID : Int
  Value : α

/-- The loop that seeds the result of a reader: `res[id] = dflt` for every
declared group ID. -/
def seedMap {α : Type} (tGroupIDs : List Int) (dflt : α) : GoMap Int α :=
  tGroupIDs.foldl (fun res id => res.set id dflt) GoMap.empty

/-- The function `readTGroupFnames`. -/
def readTGroupFnames (cmp : String → String → Except String Int)
    (unmarshal : Bytes → Except String (List (testGroupInfo (List String))))
    (specVers : String) (tomlContent : Bytes) (tGroupIDs : List Int) :
    Except String (GoMap Int (List String)) :=
  let res := seedMap tGroupIDs []
  match cmp specVers "v2.2.0" with
  | .error err => .error ("error comparing sem versions: " ++ err)
  | .ok semVerCmpRes =>
    if semVerCmpRes < 0 then .ok res
    else
      match unmarshal tomlContent with
      | .error err => .error ("error unmarshaling test groups: " ++ err)
      | .ok groups =>
        .ok (groups.foldl
          (fun res group =>
            if res.has group.GroupID then res.set group.GroupID group.Value else res) res)

/-- The function `readTGroupTestIDs`. -/
def readTGroupTestIDs (cmp : String → String → Except String Int)
    (unmarshal : Bytes → Except String (List (testGroupInfo (List Int))))
    (specVers : String) (tomlContent : Bytes) (tGroupIDs : List Int) :
    Except String (GoMap Int (List Int)) :=
  let res := seedMap tGroupIDs []
  match cmp specVers "v2.2.0" with
  | .error err => .error ("error comparing sem versions: " ++ err)
  | .ok semVerCmpRes =>
    if semVerCmpRes < 0 then .ok res
    else
      match unmarshal tomlContent with
      | .error err => .error ("failed to unmarshal the test group IDs: " ++ err)
      | .ok groups =>
        .ok (groups.foldl (fun res group => res.set group.GroupID group.Value) res)

/-- The loop of `readTGroupToStMap` over the decoded groups: it stops with an
error at the first group whose ID already is a key of `res`. -/
def stMapLoop : List (testGroupInfo Int) → GoMap Int Int → Except String (GoMap Int Int)
  | [], res => .ok res
  | group :: groups, res =>
    if res.has group.GroupID then
      .error ("duplicate group ID: " ++ toString group.GroupID)
    else stMapLoop groups (res.set group.GroupID group.Value)

/-- The function `readTGroupToStMap`. -/
def readTGroupToStMap (cmp : String → String → Except String Int)
    (unmarshal : Bytes → Except String (List (testGroupInfo Int)))
    (specVers : String) (tomlContent : Bytes) : Except String (GoMap Int Int) :=
  match cmp specVers "v2.2.0" with
  | .error err => .error ("error comparing sem versions: " ++ err)
  | .ok semVerCmpRes =>
    if semVerCmpRes < 0 then .ok GoMap.empty
    else
      match unmarshal tomlContent with
      | .error err => .error ("error unmarshaling test groups: " ++ err)
      | .ok groups => stMapLoop groups GoMap.empty

/-- The function `readTGroupPoints`. -/
def readTGroupPoints (cmp : String → String → Except String Int)
    (unmarshal : Bytes → Except String (List (testGroupInfo Int)))
    (specVers : String) (tomlContent : Bytes) (tGroupIDs : List Int) :
    Except String (GoMap Int Int) :=
  let res := seedMap tGroupIDs 0
  match cmp specVers "v2.2.0" with
  | .error err => .error ("error comparing sem versions: " ++ err)
  | .ok semVerCmpRes =>
    if semVerCmpRes < 0 then .ok res
    else
      match unmarshal tomlContent with
      | .error err => .error ("failed to unmarshal the test group points: " ++ err)
      | .ok groups =>
        .ok (groups.foldl (fun res group => res.set group.GroupID group.Value) res)

/-- The function `readTestGroupIDs`; the decoded struct has the field
`group_id` only. -/
def readTestGroupIDs (cmp : String → String → Except String Int)
    (unmarshal : Bytes → Except String (List (testGroupInfo Unit)))
    (specVers : String) (tomlContent : Bytes) : Except String (List Int) :=
  match cmp specVers "v2.2.0" with
  | .error err => .error ("error comparing sem versions: " ++ err)
  | .ok semVerCmpRes =>
    if semVerCmpRes < 0 then .ok []
    else
      match unmarshal tomlContent with
      | .error err => .error ("failed to unmarshal the test group IDs: " ++ err)
      | .ok groups => .ok (groups.map (fun group => group.GroupID))

/-- The function `readIsTGroupPublic`. -/
def readIsTGroupPublic (cmp : String → String → Except String Int)
    (unmarshal : Bytes → Except String (List (testGroupInfo Bool)))
    (specVers : String) (tomlContent : Bytes) (tGroupIDs : List Int) :
    Except String (GoMap Int Bool) :=
  let res := seedMap tGroupIDs true
  match cmp specVers "v2.2.0" with
  | .error err => .error ("error comparing sem versions: " ++ err)
  | .ok semVerCmpRes =>
    if semVerCmpRes < 0 then .ok res
    else
      match unmarshal tomlContent with
      | .error err =>
        .error ("failed to unmarshal the test group public status: " ++ err)
      | .ok groups =>
        .ok (groups.foldl
          (fun res group =>
            if res.has group.GroupID then res.set group.GroupID group.Value else res) res)

/-- The value of the last element of `groups` whose `group_id` is `k`, if any
element mentions `k`. -/
def lastValue {α : Type} (groups : List (testGroupInfo α)) (k : Int) : Option α :=
  ((groups.filter (fun group => decide (group.GroupID = k))).getLast?).map
    (fun group => group.Value)

/-- Modelled from the spec: the version comparator is not among the sources.
A decimal number: a non-empty run of digits. -/
def parseNumber (cs : List Char) : Option Nat :=
  if cs ≠ [] ∧ cs.all Char.isDigit = true then
    some (cs.foldl (fun n c => 10 * n + (c.toNat - 48)) 0)
  else none

/-- Modelled from the spec: the version comparator is not among the sources.
A version string has the form `vMAJOR.MINOR.PATCH` (§4.2). -/
def parseSemVersion (s : String) : Option (Nat × Nat × Nat) :=
  match s.data with
  | 'v' :: rest =>
    match rest.splitOn '.' with
    | [a, b, c] =>
      match parseNumber a, parseNumber b, parseNumber c with
      | some x, some y, some z => some (x, y, z)
      | _, _, _ => none
    | _ => none
  | _ => none

/-- Modelled from the spec: the version comparator is not among the sources.
The comparison of two version components: -1, 0 or 1. -/
def cmpNat (a b : Nat) : Int := if a < b then -1 else if a = b then 0 else 1

/-- Modelled from the spec: `getCmpSemVersionsResult` is not among the sources.
Per §4.2 it says whether the first version is lower than (-1), equal to (0) or
higher than (1) the second, and fails when either string is no
`vMAJOR.MINOR.PATCH`.  It is used to instantiate the parameter `cmp` of the
readers at concrete versions. -/
def getCmpSemVersionsResult (a b : String) : Except String Int :=
  match parseSemVersion a, parseSemVersion b with
  | some (a1, a2, a3), some (b1, b2, b3) =>
    .ok (if cmpNat a1 b1 ≠ 0 then cmpNat a1 b1
         else if cmpNat a2 b2 ≠ 0 then cmpNat a2 b2 else cmpNat a3 b3)
  | _, _ => .error "malformed version"

/-- A stand-in for `toml.Unmarshal` used at concrete inputs: it decodes every
content to the given `test_groups` array. -/
def decodesTo {α : Type} (groups : List (testGroupInfo α)) :
    Bytes → Except String (List (testGroupInfo α)) :=
  fun _ => .ok groups

/-- A stand-in for `toml.Unmarshal` used at concrete inputs: it fails on every
content. -/
def decodeFails {α : Type} : Bytes → Except String (List (testGroupInfo α)) :=
  fun _ => .error "toml: invalid"

/-! ## The test files written by `Store` (`store.go`)

The loop of `Store` over the tests is embedded as the list of the
`os.WriteFile` calls it makes when every call succeeds (path and content, in
order).  `filepath.Join` and `fmt.Sprintf` belong to the Go library:
`filepath.Join` is the parameter `join`, and `%03d` applied to a number that is
not negative is `sprintf03d`. -/

/-- The Go call `fmt.Sprintf("%03d", n)` for `n ≥ 0`: the decimal digits of `n`,
filled up with zeros on the left to three characters. -/
def sprintf03d (n : Nat) : String :=
  String.mk
    ((List.replicate (3 - (Nat.digits 10 n).length) 0 ++ (Nat.digits 10 n).reverse).map
      Nat.digitChar)

/-- The two file names `Store` hands to `filepath.Join` for the test `t` met at
index `i` (counted from 0) of the loop: `*t.Name+".in"`, `*t.Name+".out"` when
`t.Name != nil`, else `Sprintf("%03d.in", i+1)`, `Sprintf("%03d.out", i+1)`. -/
def storeFileNames (i : Nat) (t : test) : String × String :=
  match t.Name with
  | some name => (name ++ ".in", name ++ ".out")
  | none => (sprintf03d (i + 1) ++ ".in", sprintf03d (i + 1) ++ ".out")

/-- The loop `for i, t := range t.tests` of `Store`, entered at index `i` with
the tests that remain: the writes it makes. -/
def storeLoop (join : String → String → String) (testsDirPath : String) :
    Nat → List test → List (String × Bytes)
  | _, [] => []
  | i, t :: ts =>
    (join testsDirPath (storeFileNames i t).1, t.Input) ::
    (join testsDirPath (storeFileNames i t).2, t.Answer) ::
    storeLoop join testsDirPath (i + 1) ts

/-- The test files that `Task.Store(dirPath)` writes. -/
def storeTestWrites (join : String → String → String) (t : Task) (dirPath : String) :
    List (String × Bytes) :=
  storeLoop join (join dirPath "tests") 0 t.tests

/-- A stand-in for `filepath.Join` used at concrete inputs: the two elements
with a slash between them (what `filepath.Join` returns for elements that need
no cleaning). -/
def joinSlash (dir name : String) : String := dir ++ "/" ++ name

/-- Two tests of which the first carries the name `002` and the second, at
position 2, carries none. -/
def collidingTask : Task :=
  { Task.empty with tests := [⟨1, [10], [11], some "002"⟩, ⟨2, [20], [21], none⟩] }

/-- Two tests of which the first carries the name `a` and the second carries
none. -/
def oneNamedTask : Task :=
  { Task.empty with tests := [⟨1, [10], [11], some "a"⟩, ⟨2, [20], [21], none⟩] }

/-- The method `Task.GetTestsSortedByID`: the returned slice and the task after
the call (the method sorts `t.tests` in place and returns it).  `sort.Slice`
with the comparison `tests[i].ID < tests[j].ID` is embedded as insertion sort by
ID; `sort.Slice` is not stable, so for tests with equal IDs the embedding fixes
one of its possible results, and for pairwise distinct IDs the result of every
correct sort is the same. -/
def GetTestsSortedByID (t : Task) : List test × Task :=
  let sorted := t.tests.insertionSort (fun a b => a.ID ≤ b.ID)
  (sorted, { t with tests := sorted })

/-- A call of `Task.GetInfoOnTestGroup` as a transition: the returned value and
the task after the call; the body of the method assigns nothing. -/
def callGetInfoOnTestGroup (t : Task) (id : Int) : TestGroupInfo × Task :=
  (GetInfoOnTestGroup t id, t)

/-- A call of `Task.GetTestGroupIDs` as a transition: the returned value and the
task after the call; the body of the method assigns nothing. -/
def callGetTestGroupIDs (t : Task) : List Int × Task :=
  (GetTestGroupIDs t, t)

/-- A call of `Task.GetTestFilenameFromID` as a transition: the returned value
and the task after the call; the body of the method assigns nothing. -/
def callGetTestFilenameFromID (t : Task) (testID : Int) : String × Task :=
  (GetTestFilenameFromID t testID, t)

/-- The outer `for found` loop of `AddTest` and of `testGroupMexPositiveID` cut
off after `passes` runs of the inner loop: `none` when the loop has not stopped
by then. -/
def mexLoopFuel : Nat → List Int → Int → Option Int
  | 0, _, _ => none
  | passes + 1, ids, mex =>
    if (scanPass ids false mex).1 then mexLoopFuel passes ids (scanPass ids false mex).2
    else some (scanPass ids false mex).2

/-- The number of distinct positive integers in `ids`. -/
def distinctPositive (ids : List Int) : Nat :=
  (ids.dedup.filter (fun x => decide (0 < x))).length

/-! ## Group lists held in memory

`AddTestGroupWithID` stores the slice it is given without copying it
(`t.tGroupTestIDs[groupID] = testIDs`), and the last loop of `SwapTestsWithIDs`
writes through the stored slices (`v[i] = id2`).  The definitions below embed
that loop on the backing arrays, so that group lists which share an array are
covered. -/

/-- A Go `[]int` as the program holds it: the window of `length` cells that
starts at cell `offset` of the backing array `array`. -/
structure intSlice where
  array : Nat
  offset : Nat
  length : Nat
  deriving DecidableEq

/-- The memory behind the map `tGroupTestIDs`: the contents of the backing
arrays, and the entries of the map (key and stored slice) listed in the order
in which the `range` loop of `SwapTestsWithIDs` visits them (Go leaves that
order open; the keys of a map are pairwise distinct). -/
structure GroupMemory where
  arrays : Nat → List Int
  slices : List (Int × intSlice)

/-- The elements of a slice: the cells of its window. -/
def intSlice.read (s : intSlice) (arrays : Nat → List Int) : List Int :=
  ((arrays s.array).drop s.offset).take s.length

/-- The map `tGroupTestIDs` as the rest of the program reads it: every key with
the elements of its slice. -/
def GroupMemory.view (g : GroupMemory) : GoMap Int (List Int) :=
  fun k => (g.slices.lookup k).map (fun s => s.read g.arrays)

/-- The loop `for i := 0; i < len(v); i++` of `SwapTestsWithIDs` at the slice
`s`, seen on the cells of its backing array from cell `i` on: the cells inside
the window are relabelled, the others are left alone. -/
def relabelFrom (id1 id2 : Int) (s : intSlice) : Nat → List Int → List Int
  | _, [] => []
  | i, v :: vs =>
    (if s.offset ≤ i ∧ i < s.offset + s.length then swapID id1 id2 v else v) ::
      relabelFrom id1 id2 s (i + 1) vs

/-- The memory after the inner loop has run at the slice `s`. -/
def writeSlice (id1 id2 : Int) (arrays : Nat → List Int) (s : intSlice) : Nat → List Int :=
  fun a => if a = s.array then relabelFrom id1 id2 s 0 (arrays a) else arrays a

/-- The loop `for k, v := range t.tGroupTestIDs` of `SwapTestsWithIDs` (lines
55 to 64): the inner loop runs at the slice of every entry in turn; the slice
stored back by `t.tGroupTestIDs[k] = v` is the one read, so the entries stay as
they are. -/
def swapGroupLoop (id1 id2 : Int) (g : GroupMemory) : GroupMemory :=
  { g with
    arrays := g.slices.foldl (fun arrays p => writeSlice id1 id2 arrays p.2) g.arrays }

/-- The method `Task.SwapTestsWithIDs` on a task whose group lists are held in
the memory `g` (so that `t.tGroupTestIDs` is `g.view`): the tests and the
filename indexes change as in `SwapTestsWithIDs`, the group lists are what the
memory holds after the loop over the stored slices. -/
def SwapTestsWithIDsMem (t : Task) (g : GroupMemory) (id1 id2 : Int) : Task × GroupMemory :=
  ({ SwapTestsWithIDs t id1 id2 with tGroupTestIDs := (swapGroupLoop id1 id2 g).view },
    swapGroupLoop id1 id2 g)

/-- No two entries of the map hold a slice of the same backing array. -/
def GroupMemory.Unshared (g : GroupMemory) : Prop :=
  (g.slices.map (fun p => p.2.array)).Nodup

/-! ## Predicates of the data model -/

/-- The two filename indexes are inverse to each other. -/
def IndexesInverse (t : Task) : Prop :=
  ∀ (x : Int) (f : String), t.testIDToFilename x = some f ↔ t.testFilenameToID f = some x

/-- The least element property of the allocated identifier: `m` is the smallest
integer from 1 on that does not occur in `ids`. -/
def IsMex (ids : List Int) (m : Int) : Prop :=
  1 ≤ m ∧ m ∉ ids ∧ ∀ k : Int, 1 ≤ k → k < m → k ∈ ids

/-- Both kinds of identifier are positive: every test ID and every registered
test-group ID. -/
def AllPositive (t : Task) : Prop :=
  (∀ x ∈ t.testIDs, 0 < x) ∧ (∀ g ∈ t.testGroupIDs, 0 < g)

/-! ## Concrete tasks used as inputs -/

/-- A test without payload and without name. -/
def bareTest (id : Int) : test := ⟨id, [], [], none⟩

/-- Three tests 1, 2, 3 of which only test 3 has a filename, the empty string. -/
def emptyNameTask : Task :=
  { Task.empty with
    tests := [bareTest 1, bareTest 2, bareTest 3]
    testIDToFilename := GoMap.empty.set 3 ""
    testFilenameToID := GoMap.empty.set "" 3 }

/-- Two tests 1 and 2 of which test 1 has the filename `a`, and one test group
with the identifier 1. -/
def namedTask : Task :=
  { Task.empty with
    tests := [bareTest 1, bareTest 2]
    testIDToFilename := GoMap.empty.set 1 "a"
    testFilenameToID := GoMap.empty.set "a" 1
    testGroupIDs := [1]
    isTGroupPublic := GoMap.empty.set 1 true
    tGroupPoints := GoMap.empty.set 1 10
    tGroupTestIDs := GoMap.empty.set 1 [1, 2]
    tGroupToStMap := GoMap.empty.set 1 1 }

/-- The memory after the slice `[1, 2]` was given to `AddTestGroupWithID` for
the group 1 and again for the group 2: one backing array, two entries. -/
def sharedMemory : GroupMemory where
  arrays := fun a => if a = 0 then [1, 2] else []
  slices := [(1, ⟨0, 0, 2⟩), (2, ⟨0, 0, 2⟩)]

/-- The task with the tests 1 and 2 after `AddTestGroupWithID(1, ...)` and
`AddTestGroupWithID(2, ...)` were called with the test IDs `[1, 2]`. -/
def sharedTask : Task :=
  (AddTestGroupWithID
    (AddTestGroupWithID { Task.empty with tests := [bareTest 1, bareTest 2] }
      1 10 true [1, 2] 1).1
    2 20 true [1, 2] 1).1

/-- The memory in which the group 1 of `namedTask` holds its list `[1, 2]` in
an array of its own. -/
def namedMemory : GroupMemory where
  arrays := fun a => if a = 0 then [1, 2] else []
  slices := [(1, ⟨0, 0, 2⟩)]

/-! ## Facts about the allocation loops -/

/-- The inner loop never resets `found`. -/
theorem scanPass_found_true (ids : List Int) (mex : Int) :
    (scanPass ids true mex).1 = true := by
  induction ids generalizing mex with
  | nil => rfl
  | cons x xs ih =>
    unfold scanPass
    split
    · exact ih _
    · exact ih _

/-- A run of the inner loop that finds nothing leaves `mex` as it was, and `mex`
is not among the identifiers. -/
theorem scanPass_not_found (ids : List Int) (mex : Int)
    (h : (scanPass ids false mex).1 = false) :
    (scanPass ids false mex).2 = mex ∧ mex ∉ ids := by
  induction ids with
  | nil => simp [scanPass]
  | cons x xs ih =>
    unfold scanPass at h ⊢
    by_cases hx : x = mex
    · rw [if_pos hx] at h
      rw [scanPass_found_true] at h
      exact absurd h (by decide)
    · rw [if_neg hx] at h ⊢
      obtain ⟨h1, h2⟩ := ih h
      refine ⟨h1, ?_⟩
      intro hm
      rcases List.mem_cons.1 hm with e | e
      · exact hx e.symm
      · exact h2 e

/-- Every value `mex` steps over during a run of the inner loop is an element
of the scanned list. -/
theorem scanPass_mem (all xs : List Int) (hsub : ∀ x ∈ xs, x ∈ all)
    (found : Bool) (mex k : Int) (h1 : mex ≤ k)
    (h2 : k < (scanPass xs found mex).2) : k ∈ all := by
  induction xs generalizing found mex with
  | nil => simp [scanPass] at h2; omega
  | cons x xs ih =>
    have hsub' : ∀ y ∈ xs, y ∈ all := fun y hy => hsub y (List.mem_cons_of_mem _ hy)
    unfold scanPass at h2
    by_cases hx : x = mex
    · rw [if_pos hx] at h2
      by_cases hk : k = mex
      · rw [hk, ← hx]
        exact hsub x (List.mem_cons_self _ _)
      · exact ih hsub' true (mex + 1) (by omega) h2
    · rw [if_neg hx] at h2
      exact ih hsub' found mex h1 h2

/-- The outer loop unfolds to one run of the inner loop followed, when that run
found something, by the outer loop again. -/
theorem mexLoop_eq (ids : List Int) (mex : Int) :
    mexLoop ids mex =
      if (scanPass ids false mex).1 then mexLoop ids (scanPass ids false mex).2
      else (scanPass ids false mex).2 := by
  rw [mexLoop]
  split <;> simp_all

/-- Entered with a `mex` below which every integer from 1 on is in `ids`, the
outer loop returns the least integer from 1 on that is not in `ids`. -/
theorem mexLoop_isMex (ids : List Int) (mex : Int) (h1 : 1 ≤ mex)
    (hlow : ∀ k : Int, 1 ≤ k → k < mex → k ∈ ids) : IsMex ids (mexLoop ids mex) := by
  generalize hn : pending ids mex = n
  induction n using Nat.strong_induction_on generalizing mex with
  | _ n ih =>
    rw [mexLoop_eq]
    by_cases hf : (scanPass ids false mex).1 = true
    · rw [if_pos hf]
      have hle := scanPass_le ids false mex
      rcases scanPass_found ids false mex hf with c | c
      · exact absurd c (by decide)
      · have hlt := pending_lt ids mex _ c
        refine ih _ (by omega) _ (by omega) ?_ rfl
        intro k hk1 hk2
        by_cases hk : k < mex
        · exact hlow k hk1 hk
        · exact scanPass_mem ids ids (fun _ hx => hx) false mex k (by omega) hk2
    · rw [if_neg hf]
      have hf' : (scanPass ids false mex).1 = false := by simpa using hf
      obtain ⟨e, hnot⟩ := scanPass_not_found ids mex hf'
      rw [e]
      exact ⟨h1, hnot, hlow⟩

theorem mexLoop_one_isMex (ids : List Int) : IsMex ids (mexLoop ids 1) :=
  mexLoop_isMex ids 1 (le_refl 1) (fun k h1 h2 => by omega)

theorem isMex_unique (ids : List Int) (a b : Int) (ha : IsMex ids a) (hb : IsMex ids b) :
    a = b := by
  obtain ⟨a1, a2, a3⟩ := ha
  obtain ⟨b1, b2, b3⟩ := hb
  by_contra hne
  rcases lt_or_gt_of_ne hne with c | c
  · exact a2 (b3 a a1 c)
  · exact b2 (a3 b b1 c)

theorem mexLoop_one_eq (ids : List Int) (m : Int) (h : IsMex ids m) : mexLoop ids 1 = m :=
  isMex_unique ids _ _ (mexLoop_one_isMex ids) h

/-! ## Facts about the relabelling -/

/-- The relabelling of the code is the transposition of `id1` and `id2`. -/
theorem swapID_eq_swap (id1 id2 x : Int) : swapID id1 id2 x = Equiv.swap id1 id2 x := by
  unfold swapID
  by_cases h1 : x = id1
  · subst h1; simp
  · by_cases h2 : x = id2
    · subst h2; simp [h1]
    · rw [if_neg h1, if_neg h2, Equiv.swap_apply_of_ne_of_ne h1 h2]

theorem swapID_swapID (id1 id2 x : Int) : swapID id1 id2 (swapID id1 id2 x) = x := by
  simp [swapID_eq_swap]

theorem swapID_injective (id1 id2 : Int) : Function.Injective (swapID id1 id2) := by
  intro x y h
  have := congrArg (swapID id1 id2) h
  simpa [swapID_swapID] using this

theorem SwapTestsWithIDs_tests (t : Task) (id1 id2 : Int) :
    (SwapTestsWithIDs t id1 id2).tests
      = t.tests.map (fun x => { x with ID := swapID id1 id2 x.ID }) := rfl

theorem SwapTestsWithIDs_groups (t : Task) (id1 id2 : Int) (g : Int) :
    (SwapTestsWithIDs t id1 id2).tGroupTestIDs g
      = (t.tGroupTestIDs g).map (List.map (swapID id1 id2)) := rfl

theorem SwapTestsWithIDs_testIDs (t : Task) (id1 id2 : Int) :
    (SwapTestsWithIDs t id1 id2).testIDs = t.testIDs.map (swapID id1 id2) := by
  simp [Task.testIDs, SwapTestsWithIDs_tests, List.map_map, Function.comp_def]

/-! ## Facts about the filename indexes -/

theorem GoMap.set_apply {K V : Type} [DecidableEq K] (m : GoMap K V) (k x : K) (v : V) :
    m.set k v x = if x = k then some v else m x := rfl

theorem GoMap.delete_apply {K V : Type} [DecidableEq K] (m : GoMap K V) (k x : K) :
    m.delete k x = if x = k then none else m x := rfl

/-- The call `AddTest` keeps the filename indexes inverse (it does not touch them). -/
theorem AddTest_indexes (t : Task) (input answer : Bytes) (h : IndexesInverse t) :
    IndexesInverse (AddTest t input answer).2 := h

/-- A returning `AssignFilenameToTest` keeps the filename indexes inverse. -/
theorem AssignFilenameToTest_indexes (t t' : Task) (f : String) (id : Int)
    (h : IndexesInverse t) (hs : AssignFilenameToTest t f id = some t') :
    IndexesInverse t' := by
  simp only [AssignFilenameToTest] at hs
  split at hs
  · exact absurd hs (by simp)
  · next hno =>
    simp [GoMap.has] at hno
    obtain ⟨hid, hf⟩ := hno
    cases Option.some.inj hs
    intro x g
    simp only [GoMap.set]
    by_cases hx : x = id
    · by_cases hg : g = f
      · simp [hx, hg]
      · subst hx
        simp only [if_true, if_neg hg, Option.some.injEq]
        constructor
        · intro e; exact absurd e.symm hg
        · intro e; rw [(h x g).2 e] at hid; exact absurd hid (by simp)
    · by_cases hg : g = f
      · subst hg
        simp only [if_true, if_neg hx, Option.some.injEq]
        constructor
        · intro e; rw [(h x g).1 e] at hf; exact absurd hf (by simp)
        · intro e; exact absurd e.symm hx
      · simp only [if_neg hx, if_neg hg]
        exact h x g

/-- The call `SwapTestsWithIDs(id1, id2)` keeps the filename indexes inverse
provided that, when `id1` or `id2` has no filename, the empty filename is not
assigned to a third id. -/
theorem SwapTestsWithIDs_indexes (t : Task) (id1 id2 : Int) (h : IndexesInverse t)
    (hempty : (t.testIDToFilename id1 = none ∨ t.testIDToFilename id2 = none) →
      ∀ x, t.testFilenameToID "" = some x → x = id1 ∨ x = id2) :
    IndexesInverse (SwapTestsWithIDs t id1 id2) := by
  intro x f
  have hx := h x f
  simp only [SwapTestsWithIDs, GoMap.getD, GoMap.has]
  cases e1 : t.testIDToFilename id1 with
  | none =>
    have a1 : ∀ g, t.testFilenameToID g ≠ some id1 := fun g hg => by
      rw [(h id1 g).2 hg] at e1; exact absurd e1 (by simp)
    have k1 := a1 f
    cases e2 : t.testIDToFilename id2 with
    | none =>
      have a2 : ∀ g, t.testFilenameToID g ≠ some id2 := fun g hg => by
        rw [(h id2 g).2 hg] at e2; exact absurd e2 (by simp)
      have k2 := a2 f
      have hempty := hempty (Or.inl e1)
      simp only [Option.getD_none, Option.isSome_none, Bool.false_eq_true, if_false,
        GoMap.delete_apply]
      by_cases c1 : x = id1 <;> by_cases c2 : x = id2 <;> by_cases c3 : f = "" <;>
        simp only [c1, c2, c3, if_true, if_false] <;> aesop
    | some f2 =>
      have a2 : ∀ g, t.testFilenameToID g = some id2 ↔ g = f2 := fun g => by
        rw [← h id2 g, e2]; simp [eq_comm]
      have k2 := a2 f
      have p2 := (a2 f2).2 rfl
      have hempty := hempty (Or.inl e1)
      simp only [Option.getD_none, Option.isSome_none, Bool.false_eq_true, if_false,
        GoMap.delete_apply, GoMap.set_apply, Option.getD_some, Option.isSome_some, if_true]
      by_cases c1 : x = id1 <;> by_cases c2 : x = id2 <;> by_cases c3 : f = "" <;>
        by_cases c4 : f = f2 <;>
        simp only [c1, c2, c3, c4, if_true, if_false] <;> aesop
  | some f1 =>
    have a1 : ∀ g, t.testFilenameToID g = some id1 ↔ g = f1 := fun g => by
      rw [← h id1 g, e1]; simp [eq_comm]
    have k1 := a1 f
    have p1 := (a1 f1).2 rfl
    cases e2 : t.testIDToFilename id2 with
    | none =>
      have a2 : ∀ g, t.testFilenameToID g ≠ some id2 := fun g hg => by
        rw [(h id2 g).2 hg] at e2; exact absurd e2 (by simp)
      have k2 := a2 f
      have hempty := hempty (Or.inr e2)
      simp only [Option.getD_none, Option.isSome_none, Bool.false_eq_true, if_false,
        GoMap.delete_apply, GoMap.set_apply, Option.getD_some, Option.isSome_some, if_true]
      by_cases c1 : x = id1 <;> by_cases c2 : x = id2 <;> by_cases c3 : f = "" <;>
        by_cases c4 : f = f1 <;>
        simp only [c1, c2, c3, c4, if_true, if_false] <;> aesop
    | some f2 =>
      have a2 : ∀ g, t.testFilenameToID g = some id2 ↔ g = f2 := fun g => by
        rw [← h id2 g, e2]; simp [eq_comm]
      have k2 := a2 f
      have p2 := (a2 f2).2 rfl
      clear hempty
      simp only [Option.getD_none, Option.isSome_none, Bool.false_eq_true, if_false,
        GoMap.delete_apply, GoMap.set_apply, Option.getD_some, Option.isSome_some, if_true]
      by_cases c1 : x = id1 <;> by_cases c2 : x = id2 <;> by_cases c3 : f = f2 <;>
        by_cases c4 : f = f1 <;>
        simp only [c1, c2, c3, c4, if_true, if_false] <;> aesop
theorem IndexesInverse_empty : IndexesInverse Task.empty := by
  intro x f
  simp [Task.empty, GoMap.empty]

theorem IndexesInverse_namedTask : IndexesInverse namedTask := by
  intro x f
  simp only [namedTask, Task.empty, GoMap.empty, GoMap.set_apply]
  by_cases c1 : x = 1 <;> by_cases c2 : f = "a" <;> simp [c1, c2]
  · exact fun e => c2 e.symm
  · exact fun e => c1 e.symm

/-- The task `emptyNameTask` is what the API builds from the empty task by three
calls of `AddTest` and `AssignFilenameToTest("", 3)`. -/
theorem emptyNameTask_built :
    AssignFilenameToTest
      (AddTest (AddTest (AddTest Task.empty [] []).2 [] []).2 [] []).2 "" 3
      = some emptyNameTask := by
  simp [AssignFilenameToTest, AddTest, Task.testIDs, Task.empty, GoMap.has, GoMap.empty,
    mexLoop_eq, scanPass, emptyNameTask, bareTest]

/-! ## Facts about the test groups -/

/-- The scan of `testGroupWithIDExists` decides membership in `testGroupIDs`. -/
theorem testGroupWithIDExists_iff (t : Task) (id : Int) :
    testGroupWithIDExists t id = true ↔ id ∈ t.testGroupIDs := by
  simp [testGroupWithIDExists, List.any_eq_true]

theorem AddTestGroupWithID_of_mem (t : Task) (groupID points : Int) (pub : Bool)
    (testIDs : List Int) (subtask : Int) (h : groupID ∈ t.testGroupIDs) :
    AddTestGroupWithID t groupID points pub testIDs subtask
      = (t, some ("test group with ID " ++ toString groupID ++ " already exists")) := by
  unfold AddTestGroupWithID
  rw [if_pos ((testGroupWithIDExists_iff t groupID).2 h)]

theorem AddTestGroupWithID_of_not_mem (t : Task) (groupID points : Int) (pub : Bool)
    (testIDs : List Int) (subtask : Int) (h : groupID ∉ t.testGroupIDs) :
    AddTestGroupWithID t groupID points pub testIDs subtask
      = ({ t with
          testGroupIDs := t.testGroupIDs ++ [groupID]
          isTGroupPublic := t.isTGroupPublic.set groupID pub
          tGroupPoints := t.tGroupPoints.set groupID points
          tGroupTestIDs := t.tGroupTestIDs.set groupID testIDs
          tGroupToStMap := t.tGroupToStMap.set groupID subtask }, none) := by
  unfold AddTestGroupWithID
  rw [if_neg (fun c => h ((testGroupWithIDExists_iff t groupID).1 c))]

theorem testGroupMexPositiveID_isMex (t : Task) :
    IsMex t.testGroupIDs (testGroupMexPositiveID t) := mexLoop_one_isMex _

/-- The call `AddTestGroup` never takes its fatal branch: it returns the task that
`AddTestGroupWithID` produces for the allocated identifier. -/
theorem AddTestGroup_eq (t : Task) (points : Int) (pub : Bool) (testIDs : List Int)
    (subtask : Int) :
    AddTestGroup t points pub testIDs subtask
      = some (AddTestGroupWithID t (testGroupMexPositiveID t) points pub testIDs subtask).1 := by
  unfold AddTestGroup
  rw [AddTestGroupWithID_of_not_mem t _ points pub testIDs subtask
    (testGroupMexPositiveID_isMex t).2.1]

theorem AddTest_testIDs (t : Task) (input answer : Bytes) :
    (AddTest t input answer).2.testIDs = t.testIDs ++ [(AddTest t input answer).1] := by
  simp [AddTest, Task.testIDs]

theorem nodup_append_singleton (l : List Int) (a : Int) (h : l.Nodup) (ha : a ∉ l) :
    (l ++ [a]).Nodup := by
  rw [List.nodup_append]
  refine ⟨h, List.nodup_singleton a, ?_⟩
  intro x hx hx'
  rw [List.mem_singleton] at hx'
  exact ha (hx' ▸ hx)

theorem AddTestGroupWithID_testGroupIDs_nodup (t : Task) (groupID points : Int)
    (pub : Bool) (testIDs : List Int) (subtask : Int) (h : t.testGroupIDs.Nodup) :
    (AddTestGroupWithID t groupID points pub testIDs subtask).1.testGroupIDs.Nodup := by
  by_cases c : groupID ∈ t.testGroupIDs
  · rw [AddTestGroupWithID_of_mem t groupID points pub testIDs subtask c]
    exact h
  · rw [AddTestGroupWithID_of_not_mem t groupID points pub testIDs subtask c]
    exact nodup_append_singleton _ _ h c

theorem AddTestGroupWithID_testIDs (t : Task) (groupID points : Int)
    (pub : Bool) (testIDs : List Int) (subtask : Int) :
    (AddTestGroupWithID t groupID points pub testIDs subtask).1.testIDs = t.testIDs := by
  by_cases c : groupID ∈ t.testGroupIDs
  · rw [AddTestGroupWithID_of_mem t groupID points pub testIDs subtask c]
  · rw [AddTestGroupWithID_of_not_mem t groupID points pub testIDs subtask c]
    rfl

theorem AllPositive_namedTask : AllPositive namedTask :=
  ⟨by decide, by decide⟩

/-- On a task with positive identifiers, the identifiers after
`SwapTestsWithIDs(id1, id2)` are positive exactly when no test receives a
non-positive ID. -/
theorem SwapTestsWithIDs_allPositive_iff (t : Task) (h : AllPositive t) (id1 id2 : Int) :
    AllPositive (SwapTestsWithIDs t id1 id2) ↔
      (id1 ∈ t.testIDs → 0 < id2) ∧ (id2 ∈ t.testIDs → 0 < id1) := by
  obtain ⟨ht, hg⟩ := h
  unfold AllPositive
  rw [SwapTestsWithIDs_testIDs]
  constructor
  · rintro ⟨a, -⟩
    constructor
    · intro hm
      have := a (swapID id1 id2 id1) (List.mem_map_of_mem _ hm)
      simpa [swapID] using this
    · intro hm
      have := a (swapID id1 id2 id2) (List.mem_map_of_mem _ hm)
      unfold swapID at this
      split at this
      · next e => rw [← e]; exact this
      · simpa using this
  · rintro ⟨a, b⟩
    refine ⟨?_, hg⟩
    intro x hx
    obtain ⟨y, hy, rfl⟩ := List.mem_map.1 hx
    unfold swapID
    split
    · next e => exact a (e ▸ hy)
    · split
      · next e => exact b (e ▸ hy)
      · exact ht y hy

/-- On a task with positive identifiers, the identifiers after
`AddTestGroupWithID(groupID, ...)` are positive exactly when `groupID` is. -/
theorem AddTestGroupWithID_allPositive_iff (t : Task) (h : AllPositive t)
    (groupID points : Int) (pub : Bool) (testIDs : List Int) (subtask : Int) :
    AllPositive (AddTestGroupWithID t groupID points pub testIDs subtask).1 ↔ 0 < groupID := by
  obtain ⟨ht, hg⟩ := h
  by_cases c : groupID ∈ t.testGroupIDs
  · rw [AddTestGroupWithID_of_mem t groupID points pub testIDs subtask c]
    exact ⟨fun _ => hg groupID c, fun _ => ⟨ht, hg⟩⟩
  · rw [AddTestGroupWithID_of_not_mem t groupID points pub testIDs subtask c]
    unfold AllPositive
    constructor
    · rintro ⟨-, b⟩
      exact b groupID (by simp)
    · intro hpos
      refine ⟨ht, ?_⟩
      intro g hmem
      rcases List.mem_append.1 hmem with e | e
      · exact hg g e
      · rw [List.mem_singleton.1 e]; exact hpos

/-! ## The claims -/

/-- C1: `AddTest` returns the smallest integer from 1 on that is not the ID of
a test of the task, and the task afterwards differs from the task before only
in its test sequence, which is the old one with the test
`{ID: m, Input: input, Answer: answer}` appended; with tests carrying the IDs
1 and 3 the call returns 2. -/
theorem AddTest_returns_mex_and_appends (t : Task) (input answer : Bytes) :
    IsMex t.testIDs (AddTest t input answer).1 ∧
    (AddTest t input answer).2 =
      { t with tests := t.tests ++
        [{ ID := (AddTest t input answer).1, Input := input, Answer := answer,
           Name := none }] } ∧
    (AddTest { Task.empty with tests := [bareTest 1, bareTest 3] }
      input answer).1 = 2 := by
  refine ⟨mexLoop_one_isMex _, rfl, ?_⟩
  apply mexLoop_one_eq
  refine ⟨by decide, by decide, ?_⟩
  intro k h1 h2
  have : k = 1 := by omega
  subst this
  decide

/-- C2: calling `SwapTestsWithIDs(a, b)` twice in a row restores the test
sequence and the `TestIDs` list of every test group. -/
theorem SwapTestsWithIDs_twice (t : Task) (a b : Int) :
    (SwapTestsWithIDs (SwapTestsWithIDs t a b) a b).tests = t.tests ∧
    (SwapTestsWithIDs (SwapTestsWithIDs t a b) a b).tGroupTestIDs = t.tGroupTestIDs := by
  constructor
  · rw [SwapTestsWithIDs_tests, SwapTestsWithIDs_tests, List.map_map]
    conv_rhs => rw [← List.map_id t.tests]
    apply List.map_congr_left
    intro x _
    simp [swapID_swapID]
  · funext g
    rw [SwapTestsWithIDs_groups, SwapTestsWithIDs_groups]
    cases t.tGroupTestIDs g with
    | none => rfl
    | some l =>
      simp only [Option.map_some', List.map_map]
      congr 1
      conv_rhs => rw [← List.map_id l]
      apply List.map_congr_left
      intro x _
      simp [swapID_swapID]

/-- With `s` the transposition of `id1` and `id2`, `SwapTestsWithIDs` on group
lists taken as values keeps the length of the test sequence and replaces the ID
of the test at each position by `s` of it (Input and Answer kept); the same
groups have a `TestIDs` list, each of the same length and holding at each
position `s` of the old value; the list of group IDs and the points, public
flag and subtask of every group are unchanged. -/
theorem SwapTestsWithIDs_values_relabel (t : Task) (id1 id2 : Int) :
    (SwapTestsWithIDs t id1 id2).tests.length = t.tests.length ∧
    (∀ i : Nat, (SwapTestsWithIDs t id1 id2).tests[i]? =
      (t.tests[i]?).map (fun x => { x with ID := Equiv.swap id1 id2 x.ID })) ∧
    (∀ g : Int, ((SwapTestsWithIDs t id1 id2).tGroupTestIDs g).isSome
      = (t.tGroupTestIDs g).isSome) ∧
    (∀ g : Int, (GetInfoOnTestGroup (SwapTestsWithIDs t id1 id2) g).TestIDs.length
      = (GetInfoOnTestGroup t g).TestIDs.length) ∧
    (∀ (g : Int) (i : Nat), (GetInfoOnTestGroup (SwapTestsWithIDs t id1 id2) g).TestIDs[i]?
      = ((GetInfoOnTestGroup t g).TestIDs[i]?).map (Equiv.swap id1 id2)) ∧
    (SwapTestsWithIDs t id1 id2).testGroupIDs = t.testGroupIDs ∧
    (SwapTestsWithIDs t id1 id2).tGroupPoints = t.tGroupPoints ∧
    (SwapTestsWithIDs t id1 id2).isTGroupPublic = t.isTGroupPublic ∧
    (SwapTestsWithIDs t id1 id2).tGroupToStMap = t.tGroupToStMap := by
  have hfun : swapID id1 id2 = Equiv.swap id1 id2 := funext (swapID_eq_swap id1 id2)
  have hget : ∀ g : Int, (GetInfoOnTestGroup (SwapTestsWithIDs t id1 id2) g).TestIDs
      = (GetInfoOnTestGroup t g).TestIDs.map (Equiv.swap id1 id2) := by
    intro g
    simp only [GetInfoOnTestGroup, GoMap.getD, SwapTestsWithIDs_groups, hfun]
    cases t.tGroupTestIDs g <;> simp
  refine ⟨?_, ?_, ?_, ?_, ?_, rfl, rfl, rfl, rfl⟩
  · simp [SwapTestsWithIDs_tests]
  · intro i
    rw [SwapTestsWithIDs_tests, List.getElem?_map, hfun]
  · intro g
    rw [SwapTestsWithIDs_groups]
    cases t.tGroupTestIDs g <;> rfl
  · intro g
    rw [hget, List.length_map]
  · intro g i
    rw [hget, List.getElem?_map]

/-- C4 (evaluation at the failing input): the task with the tests 1, 2, 3 in
which test 3 was given the empty filename is built by the API and has inverse
indexes; `SwapTestsWithIDs(1, 2)` on it removes the entry of the empty filename
from `testFilenameToID` and keeps `testIDToFilename[3]`, so the indexes are no
longer inverse. -/
theorem SwapTestsWithIDs_drops_empty_filename :
    AssignFilenameToTest
      (AddTest (AddTest (AddTest Task.empty [] []).2 [] []).2 [] []).2 "" 3
      = some emptyNameTask ∧
    IndexesInverse emptyNameTask ∧
    (SwapTestsWithIDs emptyNameTask 1 2).testIDToFilename 3 = some "" ∧
    (SwapTestsWithIDs emptyNameTask 1 2).testFilenameToID "" = none ∧
    ¬ IndexesInverse (SwapTestsWithIDs emptyNameTask 1 2) := by
  have hb := emptyNameTask_built
  have h3 : (SwapTestsWithIDs emptyNameTask 1 2).testIDToFilename 3 = some "" := by
    simp [SwapTestsWithIDs, emptyNameTask, GoMap.has, GoMap.getD, GoMap.empty,
      GoMap.set_apply, GoMap.delete_apply]
  have h4 : (SwapTestsWithIDs emptyNameTask 1 2).testFilenameToID "" = none := by
    simp [SwapTestsWithIDs, emptyNameTask, GoMap.has, GoMap.getD, GoMap.empty,
      GoMap.set_apply, GoMap.delete_apply]
  refine ⟨hb, ?_, h3, h4, ?_⟩
  · exact AssignFilenameToTest_indexes _ _ _ _
      (AddTest_indexes _ _ _ (AddTest_indexes _ _ _
        (AddTest_indexes _ _ _ IndexesInverse_empty))) hb
  · intro hinv
    have := (hinv 3 "").1 h3
    rw [h4] at this
    exact absurd this (by simp)

/-- C5: `AssignFilenameToTest(f, id)` exits fatally exactly when `id` has an
entry in `testIDToFilename` or `f` has one in `testFilenameToID`; when it
returns, `GetTestFilenameFromID(id)` is `f`, `testFilenameToID[f]` is `id`,
every other entry of both indexes is as before, and every further assignment
that uses `f` or uses `id` exits fatally. -/
theorem AssignFilenameToTest_spec (t : Task) (f : String) (id : Int) :
    (AssignFilenameToTest t f id = none ↔
      (t.testIDToFilename id ≠ none ∨ t.testFilenameToID f ≠ none)) ∧
    (∀ t', AssignFilenameToTest t f id = some t' →
      GetTestFilenameFromID t' id = f ∧
      t'.testIDToFilename id = some f ∧
      t'.testFilenameToID f = some id ∧
      (∀ x, x ≠ id → t'.testIDToFilename x = t.testIDToFilename x) ∧
      (∀ g, g ≠ f → t'.testFilenameToID g = t.testFilenameToID g) ∧
      (∀ x : Int, AssignFilenameToTest t' f x = none) ∧
      (∀ g : String, AssignFilenameToTest t' g id = none)) := by
  constructor
  · simp only [AssignFilenameToTest, GoMap.has]
    rw [ite_eq_left_iff]
    simp only [Bool.or_eq_true, Option.isSome_iff_ne_none, reduceCtorEq, imp_false, not_not]
  · intro t' hs
    simp only [AssignFilenameToTest] at hs
    split at hs
    · exact absurd hs (by simp)
    · cases Option.some.inj hs
      refine ⟨?_, ?_, ?_, ?_, ?_, ?_, ?_⟩
      · simp [GetTestFilenameFromID, GoMap.set_apply]
      · simp [GoMap.set_apply]
      · simp [GoMap.set_apply]
      · intro x hx
        simp [GoMap.set_apply, hx]
      · intro g hg
        simp [GoMap.set_apply, hg]
      · intro x
        simp [AssignFilenameToTest, GoMap.has, GoMap.set_apply]
      · intro g
        simp [AssignFilenameToTest, GoMap.has, GoMap.set_apply]

/-- C6: on a task whose filename indexes are inverse, after
`SwapTestsWithIDs(id1, id2)` the entry of `id2` in `testIDToFilename` is the
old entry of `id1` and the entry of `id1` is the old entry of `id2` (a missing
entry stays missing on the other side), `GetTestFilenameFromID` of the two ids
is exchanged, `testFilenameToID` maps the old filename of `id1` to `id2` and the
old filename of `id2` to `id1`, and the entry and `GetTestFilenameFromID` of
every other id are unchanged. -/
theorem SwapTestsWithIDs_filenames (t : Task) (id1 id2 : Int) (h : IndexesInverse t) :
    (SwapTestsWithIDs t id1 id2).testIDToFilename id2 = t.testIDToFilename id1 ∧
    (SwapTestsWithIDs t id1 id2).testIDToFilename id1 = t.testIDToFilename id2 ∧
    GetTestFilenameFromID (SwapTestsWithIDs t id1 id2) id2 = GetTestFilenameFromID t id1 ∧
    GetTestFilenameFromID (SwapTestsWithIDs t id1 id2) id1 = GetTestFilenameFromID t id2 ∧
    (∀ f, t.testIDToFilename id1 = some f →
      (SwapTestsWithIDs t id1 id2).testFilenameToID f = some id2) ∧
    (∀ f, t.testIDToFilename id2 = some f →
      (SwapTestsWithIDs t id1 id2).testFilenameToID f = some id1) ∧
    (∀ x, x ≠ id1 → x ≠ id2 →
      (SwapTestsWithIDs t id1 id2).testIDToFilename x = t.testIDToFilename x ∧
      GetTestFilenameFromID (SwapTestsWithIDs t id1 id2) x = GetTestFilenameFromID t x) := by
  have e2 : (SwapTestsWithIDs t id1 id2).testIDToFilename id2 = t.testIDToFilename id1 := by
    simp only [SwapTestsWithIDs, GoMap.getD, GoMap.has]
    by_cases c : id1 = id2
    · subst c
      cases e : t.testIDToFilename id1 <;> simp [GoMap.set_apply, GoMap.delete_apply]
    · have c' : ¬ id2 = id1 := fun e => c e.symm
      cases e : t.testIDToFilename id1 <;> cases e' : t.testIDToFilename id2 <;>
        simp [GoMap.set_apply, GoMap.delete_apply, c, c']
  have e1 : (SwapTestsWithIDs t id1 id2).testIDToFilename id1 = t.testIDToFilename id2 := by
    simp only [SwapTestsWithIDs, GoMap.getD, GoMap.has]
    by_cases c : id1 = id2
    · subst c
      cases e : t.testIDToFilename id1 <;> simp [GoMap.set_apply, GoMap.delete_apply]
    · have c' : ¬ id2 = id1 := fun e => c e.symm
      cases e : t.testIDToFilename id1 <;> cases e' : t.testIDToFilename id2 <;>
        simp [GoMap.set_apply, GoMap.delete_apply, c, c']
  have ex : ∀ x, x ≠ id1 → x ≠ id2 →
      (SwapTestsWithIDs t id1 id2).testIDToFilename x = t.testIDToFilename x := by
    intro x h1 h2
    simp only [SwapTestsWithIDs, GoMap.getD, GoMap.has]
    cases e : t.testIDToFilename id1 <;> cases e' : t.testIDToFilename id2 <;>
      simp [GoMap.set_apply, GoMap.delete_apply, h1, h2]
  refine ⟨e2, e1, ?_, ?_, ?_, ?_, ?_⟩
  · simp only [GetTestFilenameFromID, e2]
  · simp only [GetTestFilenameFromID, e1]
  · intro f hf
    simp only [SwapTestsWithIDs, GoMap.getD, GoMap.has, hf]
    cases e' : t.testIDToFilename id2 with
    | none => simp [GoMap.set_apply, GoMap.delete_apply]
    | some f2 =>
      by_cases c : f = f2
      · subst c
        have a := (h id1 f).1 hf
        have b := (h id2 f).1 e'
        rw [a] at b
        simp [GoMap.set_apply, GoMap.delete_apply, Option.some.inj b]
      · simp [GoMap.set_apply, GoMap.delete_apply, c]
  · intro f hf
    simp only [SwapTestsWithIDs, GoMap.getD, GoMap.has, hf]
    cases e' : t.testIDToFilename id1 <;> simp [GoMap.set_apply, GoMap.delete_apply]
  · intro x h1 h2
    refine ⟨ex x h1 h2, ?_⟩
    simp only [GetTestFilenameFromID, ex x h1 h2]

/-- C6 at a concrete input: in the task where only test 1 has a filename, `a`,
swapping 1 and 2 assigns `a` to test 2. -/
theorem SwapTestsWithIDs_filenames_witness :
    IndexesInverse namedTask ∧
    (SwapTestsWithIDs namedTask 1 2).testIDToFilename 2 = namedTask.testIDToFilename 1 :=
  ⟨IndexesInverse_namedTask,
    (SwapTestsWithIDs_filenames namedTask 1 2 IndexesInverse_namedTask).1⟩

/-- C7: if the test IDs are pairwise distinct and the registered group IDs are
pairwise distinct, both still hold after `AddTest`, after
`SwapTestsWithIDs(id1, id2)` for all integers, after `AddTestGroupWithID` with
any `groupID` (whether it returns an error or not) and after `AddTestGroup`
(which returns). -/
theorem uniqueness_preserved (t : Task) (h1 : t.testIDs.Nodup)
    (h2 : t.testGroupIDs.Nodup) :
    (∀ input answer : Bytes,
      (AddTest t input answer).2.testIDs.Nodup ∧
      (AddTest t input answer).2.testGroupIDs.Nodup) ∧
    (∀ id1 id2 : Int,
      (SwapTestsWithIDs t id1 id2).testIDs.Nodup ∧
      (SwapTestsWithIDs t id1 id2).testGroupIDs.Nodup) ∧
    (∀ (groupID points : Int) (pub : Bool) (testIDs : List Int) (subtask : Int),
      (AddTestGroupWithID t groupID points pub testIDs subtask).1.testIDs.Nodup ∧
      (AddTestGroupWithID t groupID points pub testIDs subtask).1.testGroupIDs.Nodup) ∧
    (∀ (points : Int) (pub : Bool) (testIDs : List Int) (subtask : Int),
      ∃ t', AddTestGroup t points pub testIDs subtask = some t' ∧
        t'.testIDs.Nodup ∧ t'.testGroupIDs.Nodup) := by
  refine ⟨?_, ?_, ?_, ?_⟩
  · intro input answer
    refine ⟨?_, h2⟩
    rw [AddTest_testIDs]
    exact nodup_append_singleton _ _ h1 (mexLoop_one_isMex t.testIDs).2.1
  · intro id1 id2
    refine ⟨?_, h2⟩
    rw [SwapTestsWithIDs_testIDs]
    exact h1.map (swapID_injective id1 id2)
  · intro groupID points pub testIDs subtask
    refine ⟨?_, AddTestGroupWithID_testGroupIDs_nodup t groupID points pub testIDs subtask h2⟩
    rw [AddTestGroupWithID_testIDs]
    exact h1
  · intro points pub testIDs subtask
    refine ⟨_, AddTestGroup_eq t points pub testIDs subtask, ?_,
      AddTestGroupWithID_testGroupIDs_nodup t _ points pub testIDs subtask h2⟩
    rw [AddTestGroupWithID_testIDs]
    exact h1

/-- C7 at a concrete input: the task with the tests 1, 2 and the group 1 has
distinct identifiers of both kinds, and so has the task after swapping the
test IDs 1 and 2. -/
theorem uniqueness_preserved_witness :
    namedTask.testIDs.Nodup ∧ namedTask.testGroupIDs.Nodup ∧
    (SwapTestsWithIDs namedTask 1 2).testIDs.Nodup :=
  ⟨by decide, by decide,
    ((uniqueness_preserved namedTask (by decide) (by decide)).2.1 1 2).1⟩

/-- C8 (as stated, refuted): the task with the tests 1, 2 and the group 1 has
only positive identifiers; `SwapTestsWithIDs(1, 0)` leaves a test with the ID 0,
and `AddTestGroupWithID(0, ...)` returns no error and registers the group ID 0. -/
theorem positivity_broken :
    AllPositive namedTask ∧
    ¬ AllPositive (SwapTestsWithIDs namedTask 1 0) ∧
    (SwapTestsWithIDs namedTask 1 0).testIDs = [0, 2] ∧
    (AddTestGroupWithID namedTask 0 5 true [] 1).2 = none ∧
    (AddTestGroupWithID namedTask 0 5 true [] 1).1.testGroupIDs = [1, 0] ∧
    ¬ AllPositive (AddTestGroupWithID namedTask 0 5 true [] 1).1 := by
  have hn : (0 : Int) ∉ namedTask.testGroupIDs := by decide
  refine ⟨AllPositive_namedTask, ?_, ?_, ?_, ?_, ?_⟩
  · rw [SwapTestsWithIDs_allPositive_iff _ AllPositive_namedTask]
    intro hc
    exact absurd (hc.1 (by decide)) (by decide)
  · rw [SwapTestsWithIDs_testIDs]
    decide
  · rw [AddTestGroupWithID_of_not_mem _ _ _ _ _ _ hn]
  · rw [AddTestGroupWithID_of_not_mem _ _ _ _ _ _ hn]
    rfl
  · rw [AddTestGroupWithID_allPositive_iff _ AllPositive_namedTask]
    decide

/-- C8 (amended): if every test ID and every registered group ID is positive,
the same holds after `AddTest` and after `AddTestGroup` (which returns); it
holds after `SwapTestsWithIDs(id1, id2)` exactly when `id2` is positive if
`id1` is the ID of a test and `id1` is positive if `id2` is the ID of a test
(so for all positive arguments); and it holds after
`AddTestGroupWithID(groupID, ...)` exactly when `groupID` is positive. -/
theorem positivity_preserved (t : Task) (h : AllPositive t) :
    (∀ input answer : Bytes, AllPositive (AddTest t input answer).2) ∧
    (∀ id1 id2 : Int, AllPositive (SwapTestsWithIDs t id1 id2) ↔
      (id1 ∈ t.testIDs → 0 < id2) ∧ (id2 ∈ t.testIDs → 0 < id1)) ∧
    (∀ id1 id2 : Int, 0 < id1 → 0 < id2 → AllPositive (SwapTestsWithIDs t id1 id2)) ∧
    (∀ (groupID points : Int) (pub : Bool) (testIDs : List Int) (subtask : Int),
      AllPositive (AddTestGroupWithID t groupID points pub testIDs subtask).1 ↔
        0 < groupID) ∧
    (∀ (points : Int) (pub : Bool) (testIDs : List Int) (subtask : Int),
      ∃ t', AddTestGroup t points pub testIDs subtask = some t' ∧ AllPositive t') := by
  refine ⟨?_, SwapTestsWithIDs_allPositive_iff t h, ?_,
    AddTestGroupWithID_allPositive_iff t h, ?_⟩
  · intro input answer
    refine ⟨?_, h.2⟩
    rw [AddTest_testIDs]
    intro x hx
    rcases List.mem_append.1 hx with e | e
    · exact h.1 x e
    · rw [List.mem_singleton.1 e]
      have := (mexLoop_one_isMex t.testIDs).1
      show 0 < mexLoop t.testIDs 1
      omega
  · intro id1 id2 p1 p2
    exact (SwapTestsWithIDs_allPositive_iff t h id1 id2).2 ⟨fun _ => p2, fun _ => p1⟩
  · intro points pub testIDs subtask
    refine ⟨_, AddTestGroup_eq t points pub testIDs subtask, ?_⟩
    rw [AddTestGroupWithID_allPositive_iff t h]
    have := (testGroupMexPositiveID_isMex t).1
    omega

/-- C8 (amended) at a concrete input: the task with the tests 1, 2 and the
group 1 has only positive identifiers, and so has the task after swapping the
test IDs 1 and 2. -/
theorem positivity_preserved_witness :
    AllPositive namedTask ∧ AllPositive (SwapTestsWithIDs namedTask 1 2) :=
  ⟨AllPositive_namedTask,
    (positivity_preserved namedTask AllPositive_namedTask).2.2.1 1 2 (by decide) (by decide)⟩

/-- C9: `AddTestGroupWithID` returns an error exactly when `groupID` occurs in
the registered group-ID list, and then the task is unchanged; when it returns
no error the group-ID list is the old one with `groupID` appended,
`GetInfoOnTestGroup(groupID)` is `{groupID, points, public, testIDs, subtask}`
and `GetInfoOnTestGroup` of every other group ID is as before. -/
theorem AddTestGroupWithID_spec (t : Task) (groupID points : Int) (pub : Bool)
    (testIDs : List Int) (subtask : Int) :
    ((AddTestGroupWithID t groupID points pub testIDs subtask).2 ≠ none ↔
      groupID ∈ t.testGroupIDs) ∧
    ((AddTestGroupWithID t groupID points pub testIDs subtask).2 ≠ none →
      (AddTestGroupWithID t groupID points pub testIDs subtask).1 = t) ∧
    ((AddTestGroupWithID t groupID points pub testIDs subtask).2 = none →
      (AddTestGroupWithID t groupID points pub testIDs subtask).1.testGroupIDs
        = t.testGroupIDs ++ [groupID] ∧
      GetInfoOnTestGroup (AddTestGroupWithID t groupID points pub testIDs subtask).1 groupID
        = ⟨groupID, points, pub, testIDs, subtask⟩ ∧
      ∀ g : Int, g ≠ groupID →
        GetInfoOnTestGroup (AddTestGroupWithID t groupID points pub testIDs subtask).1 g
          = GetInfoOnTestGroup t g) := by
  by_cases c : groupID ∈ t.testGroupIDs
  · rw [AddTestGroupWithID_of_mem t groupID points pub testIDs subtask c]
    refine ⟨⟨fun _ => c, fun _ => by simp⟩, fun _ => rfl, fun hc => absurd hc (by simp)⟩
  · rw [AddTestGroupWithID_of_not_mem t groupID points pub testIDs subtask c]
    refine ⟨⟨fun hc => absurd rfl hc, fun hc => absurd hc c⟩, fun hc => absurd rfl hc, ?_⟩
    intro _
    refine ⟨rfl, ?_, ?_⟩
    · simp [GetInfoOnTestGroup, GoMap.getD, GoMap.set_apply]
    · intro g hg
      simp [GetInfoOnTestGroup, GoMap.getD, GoMap.set_apply, hg]

/-- C10: `testGroupMexPositiveID` returns the smallest integer from 1 on that
is not in the registered group-ID list, whatever that list holds; the
`AddTestGroupWithID` call that `AddTestGroup` delegates to returns no error, so
`AddTestGroup` returns, with the new group registered last under exactly that
identifier and carrying the given attributes. -/
theorem AddTestGroup_never_fatal (t : Task) (points : Int) (pub : Bool)
    (testIDs : List Int) (subtask : Int) :
    IsMex t.testGroupIDs (testGroupMexPositiveID t) ∧
    (AddTestGroupWithID t (testGroupMexPositiveID t) points pub testIDs subtask).2 = none ∧
    ∃ t', AddTestGroup t points pub testIDs subtask = some t' ∧
      t'.testGroupIDs = t.testGroupIDs ++ [testGroupMexPositiveID t] ∧
      GetInfoOnTestGroup t' (testGroupMexPositiveID t)
        = ⟨testGroupMexPositiveID t, points, pub, testIDs, subtask⟩ := by
  have hm := testGroupMexPositiveID_isMex t
  have he := AddTestGroupWithID_of_not_mem t _ points pub testIDs subtask hm.2.1
  refine ⟨hm, by rw [he], _, AddTestGroup_eq t points pub testIDs subtask, ?_, ?_⟩
  · rw [he]
  · rw [he]
    simp [GetInfoOnTestGroup, GoMap.getD, GoMap.set_apply]

/-- C11: on a task whose `visibleInputSubtasks` is strictly ascending,
`AddVisibleInputSubtask(s)` returns an error exactly when `s` is already in the
list, and then the task is unchanged; otherwise the list afterwards is strictly
ascending, one element longer, and holds exactly the old elements and `s`.
Adding 5, 1, 3 in that order to the empty task yields `[1, 3, 5]`. -/
theorem AddVisibleInputSubtask_spec (t : Task) (s : Int)
    (h : t.visibleInputSubtasks.Sorted (fun a b => a < b)) :
    ((AddVisibleInputSubtask t s).2 ≠ none ↔ s ∈ t.visibleInputSubtasks) ∧
    ((AddVisibleInputSubtask t s).2 ≠ none → (AddVisibleInputSubtask t s).1 = t) ∧
    ((AddVisibleInputSubtask t s).2 = none →
      (AddVisibleInputSubtask t s).1.visibleInputSubtasks.Sorted (fun a b => a < b) ∧
      (AddVisibleInputSubtask t s).1.visibleInputSubtasks.length
        = t.visibleInputSubtasks.length + 1 ∧
      ∀ x : Int, x ∈ (AddVisibleInputSubtask t s).1.visibleInputSubtasks ↔
        (x ∈ t.visibleInputSubtasks ∨ x = s)) ∧
    (AddVisibleInputSubtask (AddVisibleInputSubtask
      (AddVisibleInputSubtask Task.empty 5).1 1).1 3).1.visibleInputSubtasks = [1, 3, 5] := by
  have hany : (t.visibleInputSubtasks.any (fun x => decide (x = s))) = true ↔
      s ∈ t.visibleInputSubtasks := by
    simp [List.any_eq_true]
  by_cases c : s ∈ t.visibleInputSubtasks
  · have e : AddVisibleInputSubtask t s
        = (t, some ("subtask " ++ toString s ++ " already added")) := by
      simp only [AddVisibleInputSubtask]
      rw [if_pos (hany.2 c)]
    rw [e]
    exact ⟨⟨fun _ => c, fun _ => by simp⟩, fun _ => rfl, fun hc => absurd hc (by simp),
      by decide⟩
  · have e : AddVisibleInputSubtask t s
        = ({ t with
            visibleInputSubtasks :=
              (t.visibleInputSubtasks ++ [s]).insertionSort (fun a b => a ≤ b) }, none) := by
      simp only [AddVisibleInputSubtask]
      rw [if_neg (fun hc => c (hany.1 hc))]
    rw [e]
    refine ⟨⟨fun hc => absurd rfl hc, fun hc => absurd hc c⟩, fun hc => absurd rfl hc,
      fun _ => ⟨?_, ?_, ?_⟩, by decide⟩
    · apply List.Sorted.lt_of_le (List.sorted_insertionSort _ _)
      apply (List.perm_insertionSort _ _).nodup_iff.2
      exact nodup_append_singleton _ _ h.nodup c
    · simp [List.length_insertionSort]
    · intro x
      simp [List.mem_insertionSort]

/-- C11 at a concrete input: the list `[1, 5]` is strictly ascending, 3 is not
in it, and adding 3 returns no error. -/
theorem AddVisibleInputSubtask_spec_witness :
    ({ Task.empty with visibleInputSubtasks := [1, 5] } : Task).visibleInputSubtasks.Sorted
      (fun a b => a < b) ∧
    ((AddVisibleInputSubtask { Task.empty with visibleInputSubtasks := [1, 5] } 3).2 ≠ none ↔
      (3 : Int) ∈ ({ Task.empty with visibleInputSubtasks := [1, 5] } : Task).visibleInputSubtasks) :=
  ⟨by decide,
    (AddVisibleInputSubtask_spec { Task.empty with visibleInputSubtasks := [1, 5] } 3
      (by decide)).1⟩

/-- C12: `AddPDFStatement(lang, b)` returns an error exactly when a statement
for `lang` exists, and then the task is unchanged; otherwise afterwards
`GetPDFStatement(lang)` returns `b` without error and the statements of all
other languages are as before.  `GetPDFStatement(lang)` returns an error
exactly when the task holds no statement for `lang`; after any sequence of
`AddPDFStatement` calls on the empty task that is exactly when `lang` is not
among the languages of the calls. -/
theorem AddPDFStatement_spec (t : Task) (lang : String) (b : Bytes) :
    ((AddPDFStatement t lang b).2 ≠ none ↔ t.pdfStatements lang ≠ none) ∧
    ((AddPDFStatement t lang b).2 ≠ none → (AddPDFStatement t lang b).1 = t) ∧
    ((AddPDFStatement t lang b).2 = none →
      GetPDFStatement (AddPDFStatement t lang b).1 lang = .ok b ∧
      ∀ l : String, l ≠ lang →
        (AddPDFStatement t lang b).1.pdfStatements l = t.pdfStatements l ∧
        GetPDFStatement (AddPDFStatement t lang b).1 l = GetPDFStatement t l) ∧
    (∀ l : String, (∃ e, GetPDFStatement t l = .error e) ↔ t.pdfStatements l = none) ∧
    (∀ (adds : List (String × Bytes)) (l : String),
      (∃ e, GetPDFStatement (addPDFStatements Task.empty adds) l = .error e) ↔
        l ∉ adds.map Prod.fst) := by
  have hget : ∀ (u : Task) (l : String),
      (∃ e, GetPDFStatement u l = .error e) ↔ u.pdfStatements l = none := by
    intro u l
    unfold GetPDFStatement
    cases u.pdfStatements l <;> simp
  have hkeys : ∀ (adds : List (String × Bytes)) (u : Task) (l : String),
      (addPDFStatements u adds).pdfStatements l = none ↔
        (u.pdfStatements l = none ∧ l ∉ adds.map Prod.fst) := by
    intro adds
    induction adds with
    | nil => intro u l; simp [addPDFStatements]
    | cons p ps ih =>
      intro u l
      have step : addPDFStatements u (p :: ps)
          = addPDFStatements (AddPDFStatement u p.1 p.2).1 ps := rfl
      rw [step, ih]
      by_cases c : u.pdfStatements p.1 = none
      · have e : (AddPDFStatement u p.1 p.2).1.pdfStatements l
            = if l = p.1 then some p.2 else u.pdfStatements l := by
          simp [AddPDFStatement, GoMap.has, c, GoMap.set_apply]
        rw [e]
        by_cases c2 : l = p.1
        · simp [c2]
        · simp [c2]
      · have e : (AddPDFStatement u p.1 p.2).1 = u := by
          simp only [AddPDFStatement, GoMap.has]
          rw [if_pos (by simpa [Option.isSome_iff_ne_none] using c)]
        rw [e]
        by_cases c2 : l = p.1
        · subst c2; simp [c]
        · simp [c2]
  by_cases c : t.pdfStatements lang = none
  · have e : AddPDFStatement t lang b
        = ({ t with pdfStatements := t.pdfStatements.set lang b }, none) := by
      simp [AddPDFStatement, GoMap.has, c]
    rw [e]
    refine ⟨⟨fun hc => absurd rfl hc, fun hc => absurd c hc⟩, fun hc => absurd rfl hc,
      fun _ => ⟨?_, ?_⟩, hget t, ?_⟩
    · simp [GetPDFStatement, GoMap.set_apply]
    · intro l hl
      simp [GetPDFStatement, GoMap.set_apply, hl]
    · intro adds l
      rw [hget, hkeys]
      simp [Task.empty, GoMap.empty]
  · have e : AddPDFStatement t lang b
        = (t, some ("pdf statement for language " ++ lang ++ " already exists")) := by
      simp only [AddPDFStatement, GoMap.has]
      rw [if_pos (by simpa [Option.isSome_iff_ne_none] using c)]
    rw [e]
    refine ⟨⟨fun _ => c, fun _ => by simp⟩, fun _ => rfl, fun hc => absurd hc (by simp),
      hget t, ?_⟩
    intro adds l
    rw [hget, hkeys]
    simp [Task.empty, GoMap.empty]


/-! ## Facts about the readers -/

/-- The seeded map has exactly the declared group IDs as keys, each with the
default value. -/
theorem seedMap_apply {α : Type} (tGroupIDs : List Int) (dflt : α) (k : Int) :
    seedMap tGroupIDs dflt k = if k ∈ tGroupIDs then some dflt else none := by
  have gen : ∀ (ids : List Int) (res : GoMap Int α),
      (ids.foldl (fun res id => res.set id dflt) res) k
        = if k ∈ ids then some dflt else res k := by
    intro ids
    induction ids with
    | nil => intro res; simp
    | cons x xs ih =>
      intro res
      rw [List.foldl_cons, ih]
      by_cases c : k ∈ xs
      · simp [c]
      · by_cases c2 : k = x
        · simp [c2, GoMap.set_apply]
        · simp [c, c2, GoMap.set_apply]
  simpa [seedMap, GoMap.empty] using gen tGroupIDs GoMap.empty

theorem lastValue_nil {α : Type} (k : Int) :
    lastValue ([] : List (testGroupInfo α)) k = none := rfl

theorem lastValue_cons {α : Type} (g : testGroupInfo α) (gs : List (testGroupInfo α))
    (k : Int) :
    lastValue (g :: gs) k
      = if g.GroupID = k then some ((lastValue gs k).getD g.Value) else lastValue gs k := by
  unfold lastValue
  by_cases c : g.GroupID = k
  · rw [if_pos c, List.filter_cons_of_pos (by simpa using c), List.getLast?_cons]
    cases (List.filter (fun group => decide (group.GroupID = k)) gs).getLast? <;> rfl
  · rw [if_neg c, List.filter_cons_of_neg (by simpa using c)]

/-- No element mentions `k` exactly when `lastValue` finds nothing. -/
theorem lastValue_eq_none {α : Type} (groups : List (testGroupInfo α)) (k : Int) :
    lastValue groups k = none ↔ k ∉ groups.map (fun group => group.GroupID) := by
  induction groups with
  | nil => simp [lastValue_nil]
  | cons g gs ih =>
    rw [lastValue_cons]
    by_cases c : g.GroupID = k
    · simp [c]
    · rw [if_neg c, ih]
      simp only [List.map_cons, List.mem_cons, not_or]
      exact ⟨fun h => ⟨fun e => c e.symm, h⟩, fun h => h.2⟩

/-- The unguarded loop `res[group.GroupID] = value` over the decoded groups. -/
theorem foldSet_apply {α : Type} (groups : List (testGroupInfo α)) (res : GoMap Int α)
    (k : Int) :
    (groups.foldl (fun res group => res.set group.GroupID group.Value) res) k
      = match lastValue groups k with
        | some v => some v
        | none => res k := by
  induction groups generalizing res with
  | nil => simp [lastValue_nil]
  | cons g gs ih =>
    rw [List.foldl_cons, ih, lastValue_cons]
    by_cases c : g.GroupID = k
    · rw [if_pos c]
      cases lastValue gs k <;> simp [GoMap.set_apply, c.symm]
    · rw [if_neg c]
      have c' : ¬ k = g.GroupID := fun e => c e.symm
      cases lastValue gs k <;> simp [GoMap.set_apply, c']

/-- The guarded loop, which assigns only to keys the map already has. -/
theorem foldGuard_apply {α : Type} (groups : List (testGroupInfo α)) (res : GoMap Int α)
    (k : Int) :
    (groups.foldl
      (fun res group =>
        if res.has group.GroupID then res.set group.GroupID group.Value else res) res) k
      = if (res k).isSome then
          (match lastValue groups k with
            | some v => some v
            | none => res k)
        else none := by
  induction groups generalizing res with
  | nil =>
    cases h : res k <;> simp [lastValue_nil, h]
  | cons g gs ih =>
    rw [List.foldl_cons, ih, lastValue_cons]
    by_cases hk : (res k).isSome = true
    · by_cases c : g.GroupID = k
      · have hg : res.has g.GroupID = true := by rw [c]; exact hk
        have hg' : (res g.GroupID).isSome = true := hg
        rw [if_pos hg, if_pos c]
        cases lastValue gs k <;> simp [GoMap.set_apply, c.symm, hk, hg']
      · have c' : ¬ k = g.GroupID := fun e => c e.symm
        rw [if_neg c]
        by_cases hg : res.has g.GroupID = true
        · rw [if_pos hg]
          cases lastValue gs k <;> simp [GoMap.set_apply, c', hk]
        · rw [if_neg hg]
    · have hk' : res k = none := by
        cases h : res k with
        | none => rfl
        | some v => rw [h] at hk; exact absurd rfl hk
      by_cases hg : res.has g.GroupID = true
      · have c : ¬ k = g.GroupID := by
          intro e
          rw [← e] at hg
          exact hk hg
        rw [if_pos hg]
        simp [GoMap.set_apply, c, hk']
      · rw [if_neg hg]
        simp [hk']

/-- The loop of `readTGroupToStMap` fails exactly when a group ID is a key of
the map it starts from or occurs twice among the groups. -/
theorem stMapLoop_error_iff (groups : List (testGroupInfo Int)) (res : GoMap Int Int) :
    (∃ id : Int, stMapLoop groups res = .error ("duplicate group ID: " ++ toString id)) ↔
      ¬ ((∀ g ∈ groups, res g.GroupID = none) ∧
          (groups.map (fun group => group.GroupID)).Nodup) := by
  induction groups generalizing res with
  | nil => simp [stMapLoop]
  | cons g gs ih =>
    unfold stMapLoop
    by_cases hg : res.has g.GroupID = true
    · rw [if_pos hg]
      constructor
      · intro _ hc
        have := hc.1 g (List.mem_cons_self _ _)
        simp [GoMap.has, this] at hg
      · intro _
        exact ⟨g.GroupID, rfl⟩
    · rw [if_neg hg, ih]
      have hg' : res g.GroupID = none := by
        cases h : res g.GroupID with
        | none => rfl
        | some v => simp [GoMap.has, h] at hg
      apply not_congr
      simp only [List.mem_cons, forall_eq_or_imp, List.map_cons, List.nodup_cons,
        List.mem_map, not_exists, not_and, GoMap.set_apply]
      constructor
      · rintro ⟨h1, h2⟩
        refine ⟨⟨hg', ?_⟩, ?_, h2⟩
        · intro x hx
          have := h1 x hx
          by_cases e : x.GroupID = g.GroupID
          · rw [if_pos e] at this; exact absurd this (by simp)
          · rw [if_neg e] at this; exact this
        · intro x hx e
          have := h1 x hx
          rw [if_pos e] at this
          exact absurd this (by simp)
      · rintro ⟨⟨_, h1⟩, h3, h2⟩
        refine ⟨?_, h2⟩
        intro x hx
        rw [if_neg (fun e => h3 x hx e)]
        exact h1 x hx

/-- When the loop of `readTGroupToStMap` succeeds, the map holds the entries it
started with and, for every group, its value. -/
theorem stMapLoop_ok (groups : List (testGroupInfo Int)) (res m : GoMap Int Int)
    (h : stMapLoop groups res = .ok m) (k : Int) :
    m k = match lastValue groups k with
      | some v => some v
      | none => res k := by
  induction groups generalizing res with
  | nil =>
    simp only [stMapLoop, Except.ok.injEq] at h
    simp [lastValue_nil, h]
  | cons g gs ih =>
    unfold stMapLoop at h
    by_cases hg : res.has g.GroupID = true
    · rw [if_pos hg] at h
      exact absurd h (by simp)
    · rw [if_neg hg] at h
      rw [ih _ h, lastValue_cons]
      by_cases c : g.GroupID = k
      · rw [if_pos c]
        cases lastValue gs k <;> simp [GoMap.set_apply, c.symm]
      · have c' : ¬ k = g.GroupID := fun e => c e.symm
        rw [if_neg c]
        cases lastValue gs k <;> simp [GoMap.set_apply, c']

/-- Among groups with pairwise distinct IDs, `lastValue` at the ID of a group is
the value of that group. -/
theorem lastValue_of_nodup {α : Type} (groups : List (testGroupInfo α))
    (hn : (groups.map (fun group => group.GroupID)).Nodup) (g : testGroupInfo α)
    (hg : g ∈ groups) : lastValue groups g.GroupID = some g.Value := by
  induction groups with
  | nil => simp at hg
  | cons x xs ih =>
    rw [lastValue_cons]
    simp only [List.map_cons, List.nodup_cons, List.mem_map, not_exists, not_and] at hn
    rcases List.mem_cons.1 hg with e | e
    · subst e
      rw [if_pos rfl]
      have : lastValue xs g.GroupID = none := by
        rw [lastValue_eq_none]
        simp only [List.mem_map, not_exists, not_and]
        exact hn.1
      rw [this]
      rfl
    · rw [if_neg (fun c => hn.1 g e c.symm)]
      exact ih hn.2 e

theorem getCmpSemVersionsResult_v210 :
    getCmpSemVersionsResult "v2.1.0" "v2.2.0" = .ok (-1) := by rfl

theorem getCmpSemVersionsResult_v220 :
    getCmpSemVersionsResult "v2.2.0" "v2.2.0" = .ok 0 := by rfl

theorem getCmpSemVersionsResult_v230 :
    getCmpSemVersionsResult "v2.3.0" "v2.2.0" = .ok 1 := by rfl

/-- The loop of `readTGroupToStMap` either returns a map or fails with the
duplicate-group-ID error. -/
theorem stMapLoop_total (groups : List (testGroupInfo Int)) (res : GoMap Int Int) :
    (∃ m, stMapLoop groups res = .ok m) ∨
    (∃ id : Int, stMapLoop groups res = .error ("duplicate group ID: " ++ toString id)) := by
  induction groups generalizing res with
  | nil => exact Or.inl ⟨res, rfl⟩
  | cons g gs ih =>
    unfold stMapLoop
    by_cases hg : res.has g.GroupID = true
    · rw [if_pos hg]
      exact Or.inr ⟨g.GroupID, rfl⟩
    · rw [if_neg hg]
      exact ih _

/-- C13: when the comparison of the declared version with `v2.2.0` returns a
negative number, then for every decoder, every manifest content and every list
of declared group IDs no reader returns an error and no result depends on the
content: `readTGroupPoints` maps exactly the declared IDs to 0,
`readIsTGroupPublic` maps exactly them to `true`, `readTGroupTestIDs` and
`readTGroupFnames` map exactly them to the empty list, and `readTestGroupIDs`
and `readTGroupToStMap` return the empty result.  When the comparison returns 0
(equal versions) the readers do decode: on a content that fails to decode each
of them returns the decode error. -/
theorem readers_below_threshold (cmp : String → String → Except String Int)
    (specVers : String) (r : Int) (hcmp : cmp specVers "v2.2.0" = .ok r) (hr : r < 0) :
    (∀ unmarshal tomlContent tGroupIDs,
      readTGroupPoints cmp unmarshal specVers tomlContent tGroupIDs
        = .ok (fun k => if k ∈ tGroupIDs then some 0 else none)) ∧
    (∀ unmarshal tomlContent tGroupIDs,
      readIsTGroupPublic cmp unmarshal specVers tomlContent tGroupIDs
        = .ok (fun k => if k ∈ tGroupIDs then some true else none)) ∧
    (∀ unmarshal tomlContent tGroupIDs,
      readTGroupTestIDs cmp unmarshal specVers tomlContent tGroupIDs
        = .ok (fun k => if k ∈ tGroupIDs then some [] else none)) ∧
    (∀ unmarshal tomlContent tGroupIDs,
      readTGroupFnames cmp unmarshal specVers tomlContent tGroupIDs
        = .ok (fun k => if k ∈ tGroupIDs then some [] else none)) ∧
    (∀ unmarshal tomlContent,
      readTestGroupIDs cmp unmarshal specVers tomlContent = .ok []) ∧
    (∀ unmarshal tomlContent,
      readTGroupToStMap cmp unmarshal specVers tomlContent = .ok GoMap.empty) ∧
    (∀ (v : String) (tomlContent : Bytes) (tGroupIDs : List Int) (e : String),
      cmp v "v2.2.0" = .ok 0 →
      (∀ unmarshal, unmarshal tomlContent = .error e →
        readTGroupPoints cmp unmarshal v tomlContent tGroupIDs
          = .error ("failed to unmarshal the test group points: " ++ e)) ∧
      (∀ unmarshal, unmarshal tomlContent = .error e →
        readIsTGroupPublic cmp unmarshal v tomlContent tGroupIDs
          = .error ("failed to unmarshal the test group public status: " ++ e)) ∧
      (∀ unmarshal, unmarshal tomlContent = .error e →
        readTGroupTestIDs cmp unmarshal v tomlContent tGroupIDs
          = .error ("failed to unmarshal the test group IDs: " ++ e)) ∧
      (∀ unmarshal, unmarshal tomlContent = .error e →
        readTGroupFnames cmp unmarshal v tomlContent tGroupIDs
          = .error ("error unmarshaling test groups: " ++ e)) ∧
      (∀ unmarshal, unmarshal tomlContent = .error e →
        readTestGroupIDs cmp unmarshal v tomlContent
          = .error ("failed to unmarshal the test group IDs: " ++ e)) ∧
      (∀ unmarshal, unmarshal tomlContent = .error e →
        readTGroupToStMap cmp unmarshal v tomlContent
          = .error ("error unmarshaling test groups: " ++ e))) := by
  refine ⟨?_, ?_, ?_, ?_, ?_, ?_, ?_⟩
  · intro unmarshal tomlContent tGroupIDs
    simp only [readTGroupPoints, hcmp, if_pos hr]
    congr 1
    funext k
    exact seedMap_apply tGroupIDs 0 k
  · intro unmarshal tomlContent tGroupIDs
    simp only [readIsTGroupPublic, hcmp, if_pos hr]
    congr 1
    funext k
    exact seedMap_apply tGroupIDs true k
  · intro unmarshal tomlContent tGroupIDs
    simp only [readTGroupTestIDs, hcmp, if_pos hr]
    congr 1
    funext k
    exact seedMap_apply tGroupIDs [] k
  · intro unmarshal tomlContent tGroupIDs
    simp only [readTGroupFnames, hcmp, if_pos hr]
    congr 1
    funext k
    exact seedMap_apply tGroupIDs [] k
  · intro unmarshal tomlContent
    simp only [readTestGroupIDs, hcmp, if_pos hr]
  · intro unmarshal tomlContent
    simp only [readTGroupToStMap, hcmp, if_pos hr]
  · intro v tomlContent tGroupIDs e hv
    refine ⟨?_, ?_, ?_, ?_, ?_, ?_⟩ <;> intro unmarshal hu
    · simp [readTGroupPoints, hv, hu]
    · simp [readIsTGroupPublic, hv, hu]
    · simp [readTGroupTestIDs, hv, hu]
    · simp [readTGroupFnames, hv, hu]
    · simp [readTestGroupIDs, hv, hu]
    · simp [readTGroupToStMap, hv, hu]

/-- C13 at a concrete input: `v2.1.0` compares as lower than `v2.2.0`, and
`readTGroupPoints` at that version gives the declared groups 1 and 2 zero
points although the manifest decodes to 50 points for group 1. -/
theorem readers_below_threshold_witness :
    getCmpSemVersionsResult "v2.1.0" "v2.2.0" = .ok (-1) ∧ (-1 : Int) < 0 ∧
    readTGroupPoints getCmpSemVersionsResult (decodesTo [⟨1, 50⟩]) "v2.1.0" [] [1, 2]
      = .ok (fun k => if k ∈ [1, 2] then some 0 else none) :=
  ⟨getCmpSemVersionsResult_v210, by decide,
    (readers_below_threshold getCmpSemVersionsResult "v2.1.0" (-1)
      getCmpSemVersionsResult_v210 (by decide)).1 (decodesTo [⟨1, 50⟩]) [] [1, 2]⟩

/-- C14: when the comparison of the declared version with `v2.2.0` returns a
number that is not negative and the manifest decodes to the sequence `groups`
of (group_id, subtask) entries, `readTGroupToStMap` returns the error
`duplicate group ID` exactly when two entries share a group_id; otherwise it
returns a map whose keys are exactly the group_ids of the sequence, each mapped
to the subtask of its entry. -/
theorem readTGroupToStMap_spec (cmp : String → String → Except String Int)
    (unmarshal : Bytes → Except String (List (testGroupInfo Int)))
    (specVers : String) (tomlContent : Bytes) (r : Int)
    (groups : List (testGroupInfo Int))
    (hcmp : cmp specVers "v2.2.0" = .ok r) (hr : 0 ≤ r)
    (hdec : unmarshal tomlContent = .ok groups) :
    ((∃ id : Int, readTGroupToStMap cmp unmarshal specVers tomlContent
        = .error ("duplicate group ID: " ++ toString id)) ↔
      ¬ (groups.map (fun group => group.GroupID)).Nodup) ∧
    ((groups.map (fun group => group.GroupID)).Nodup →
      ∃ m, readTGroupToStMap cmp unmarshal specVers tomlContent = .ok m ∧
        (∀ k : Int, m k ≠ none ↔ k ∈ groups.map (fun group => group.GroupID)) ∧
        (∀ g ∈ groups, m g.GroupID = some g.Value)) := by
  have e : readTGroupToStMap cmp unmarshal specVers tomlContent
      = stMapLoop groups GoMap.empty := by
    simp only [readTGroupToStMap, hcmp, hdec]
    rw [if_neg (by omega)]
  rw [e]
  have hiff := stMapLoop_error_iff groups GoMap.empty
  constructor
  · rw [hiff]
    simp [GoMap.empty]
  · intro hn
    rcases stMapLoop_total groups GoMap.empty with ⟨m, hm⟩ | herr
    · refine ⟨m, hm, ?_, ?_⟩
      · intro k
        have hl := lastValue_eq_none groups k
        rw [stMapLoop_ok groups _ m hm k, ← not_iff_not, not_not, ← hl]
        cases lastValue groups k <;> simp [GoMap.empty]
      · intro g hg
        rw [stMapLoop_ok groups _ m hm, lastValue_of_nodup groups hn g hg]
    · exact absurd ⟨fun _ _ => rfl, hn⟩ (hiff.1 herr)

/-- C14 at a concrete input: at `v2.3.0`, a manifest that decodes to two
entries with the group_id 1 makes `readTGroupToStMap` return the duplicate
error. -/
theorem readTGroupToStMap_spec_witness :
    getCmpSemVersionsResult "v2.3.0" "v2.2.0" = .ok 1 ∧ (0 : Int) ≤ 1 ∧
    ((∃ id : Int, readTGroupToStMap getCmpSemVersionsResult
        (decodesTo [⟨1, 1⟩, ⟨1, 2⟩]) "v2.3.0" []
          = .error ("duplicate group ID: " ++ toString id)) ↔
      ¬ (([⟨1, 1⟩, ⟨1, 2⟩] : List (testGroupInfo Int)).map
          (fun group => group.GroupID)).Nodup) :=
  ⟨getCmpSemVersionsResult_v230, by decide,
    (readTGroupToStMap_spec getCmpSemVersionsResult (decodesTo [⟨1, 1⟩, ⟨1, 2⟩]) "v2.3.0" []
      1 [⟨1, 1⟩, ⟨1, 2⟩] getCmpSemVersionsResult_v230 (by decide) rfl).1⟩

/-- C15: when the comparison of the declared version with `v2.2.0` returns a
number that is not negative and the manifest decodes to the sequence `groups`
of (group_id, public) entries, `readIsTGroupPublic` returns a map whose keys
are exactly the declared group IDs: a declared group that no entry mentions
maps to `true`, a declared group that is mentioned maps to the value of the
last entry mentioning it, and a group_id that is not declared is no key. -/
theorem readIsTGroupPublic_spec (cmp : String → String → Except String Int)
    (unmarshal : Bytes → Except String (List (testGroupInfo Bool)))
    (specVers : String) (tomlContent : Bytes) (tGroupIDs : List Int) (r : Int)
    (groups : List (testGroupInfo Bool))
    (hcmp : cmp specVers "v2.2.0" = .ok r) (hr : 0 ≤ r)
    (hdec : unmarshal tomlContent = .ok groups) :
    ∃ m, readIsTGroupPublic cmp unmarshal specVers tomlContent tGroupIDs = .ok m ∧
      (∀ k : Int, m k ≠ none ↔ k ∈ tGroupIDs) ∧
      (∀ k ∈ tGroupIDs, k ∉ groups.map (fun group => group.GroupID) → m k = some true) ∧
      (∀ k ∈ tGroupIDs, ∀ v, lastValue groups k = some v → m k = some v) ∧
      (∀ k : Int, k ∉ tGroupIDs → m k = none) := by
  have e : readIsTGroupPublic cmp unmarshal specVers tomlContent tGroupIDs
      = .ok (groups.foldl
          (fun res group =>
            if res.has group.GroupID then res.set group.GroupID group.Value else res)
          (seedMap tGroupIDs true)) := by
    simp only [readIsTGroupPublic, hcmp, hdec]
    rw [if_neg (by omega)]
  refine ⟨_, e, ?_, ?_, ?_, ?_⟩
  · intro k
    rw [foldGuard_apply, seedMap_apply]
    by_cases c : k ∈ tGroupIDs
    · cases lastValue groups k <;> simp [c]
    · simp [c]
  · intro k hk hno
    rw [foldGuard_apply, seedMap_apply, (lastValue_eq_none groups k).2 hno]
    simp [hk]
  · intro k hk v hv
    rw [foldGuard_apply, seedMap_apply, hv]
    simp [hk]
  · intro k hk
    rw [foldGuard_apply, seedMap_apply]
    simp [hk]

/-- C15 at a concrete input: at `v2.3.0`, with the declared groups 1 and 2 and a
manifest that decodes to `public = false` for group 1 and for the undeclared
group 7, the result has a key exactly for the groups 1 and 2. -/
theorem readIsTGroupPublic_spec_witness :
    getCmpSemVersionsResult "v2.3.0" "v2.2.0" = .ok 1 ∧ (0 : Int) ≤ 1 ∧
    ∃ m, readIsTGroupPublic getCmpSemVersionsResult (decodesTo [⟨1, false⟩, ⟨7, false⟩])
        "v2.3.0" [] [1, 2] = .ok m ∧
      (∀ k : Int, m k ≠ none ↔ k ∈ [1, 2]) :=
  ⟨getCmpSemVersionsResult_v230, by decide,
    (readIsTGroupPublic_spec getCmpSemVersionsResult (decodesTo [⟨1, false⟩, ⟨7, false⟩])
      "v2.3.0" [] [1, 2] 1 [⟨1, false⟩, ⟨7, false⟩] getCmpSemVersionsResult_v230
      (by decide) rfl).imp (fun _ h => ⟨h.1, h.2.1⟩)⟩

/-- C18 (as stated, refuted): at `v2.3.0`, with group 1 as the only declared
group and a manifest that decodes to one entry for the undeclared group 7,
`readTGroupPoints` and `readTGroupTestIDs` return a map that has the key 7. -/
theorem readers_add_undeclared_group :
    (7 : Int) ∉ [1] ∧
    (∃ m, readTGroupPoints getCmpSemVersionsResult (decodesTo [⟨7, 50⟩]) "v2.3.0" [] [1]
        = .ok m ∧ m 7 = some 50) ∧
    (∃ m, readTGroupTestIDs getCmpSemVersionsResult (decodesTo [⟨7, [4]⟩]) "v2.3.0" [] [1]
        = .ok m ∧ m 7 = some [4]) := by
  have e1 : readTGroupPoints getCmpSemVersionsResult (decodesTo [⟨7, 50⟩]) "v2.3.0" [] [1]
      = .ok (([⟨7, 50⟩] : List (testGroupInfo Int)).foldl
          (fun res group => res.set group.GroupID group.Value) (seedMap [1] 0)) := by
    simp only [readTGroupPoints, getCmpSemVersionsResult_v230, decodesTo]
    rfl
  have e2 : readTGroupTestIDs getCmpSemVersionsResult (decodesTo [⟨7, [4]⟩]) "v2.3.0" [] [1]
      = .ok (([⟨7, [4]⟩] : List (testGroupInfo (List Int))).foldl
          (fun res group => res.set group.GroupID group.Value) (seedMap [1] [])) := by
    simp only [readTGroupTestIDs, getCmpSemVersionsResult_v230, decodesTo]
    rfl
  refine ⟨by decide, ⟨_, e1, ?_⟩, ⟨_, e2, ?_⟩⟩
  · rw [foldSet_apply]
    rfl
  · rw [foldSet_apply]
    rfl

/-- C18 (amended): when the comparison of the declared version with `v2.2.0`
returns a number that is not negative and the manifest decodes to the sequence
`groups`, `readTGroupFnames` returns a map whose keys are exactly the declared
group IDs (entries of an undeclared group_id are skipped), while
`readTGroupPoints` and `readTGroupTestIDs` return a map whose keys are the
declared group IDs together with every group_id an entry mentions.  In all
three a declared group that no entry mentions keeps its default (empty list,
0 points) and a mentioned key holds the value of the last entry mentioning
it. -/
theorem readers_key_sets (cmp : String → String → Except String Int)
    (specVers : String) (r : Int) (hcmp : cmp specVers "v2.2.0" = .ok r) (hr : 0 ≤ r) :
    (∀ (unmarshal : Bytes → Except String (List (testGroupInfo (List String))))
        (tomlContent : Bytes) (tGroupIDs : List Int) (groups : List (testGroupInfo (List String))),
      unmarshal tomlContent = .ok groups →
      ∃ m, readTGroupFnames cmp unmarshal specVers tomlContent tGroupIDs = .ok m ∧
        (∀ k : Int, m k ≠ none ↔ k ∈ tGroupIDs) ∧
        (∀ k ∈ tGroupIDs, k ∉ groups.map (fun group => group.GroupID) → m k = some []) ∧
        (∀ k ∈ tGroupIDs, ∀ v, lastValue groups k = some v → m k = some v)) ∧
    (∀ (unmarshal : Bytes → Except String (List (testGroupInfo Int)))
        (tomlContent : Bytes) (tGroupIDs : List Int) (groups : List (testGroupInfo Int)),
      unmarshal tomlContent = .ok groups →
      ∃ m, readTGroupPoints cmp unmarshal specVers tomlContent tGroupIDs = .ok m ∧
        (∀ k : Int, m k ≠ none ↔
          (k ∈ tGroupIDs ∨ k ∈ groups.map (fun group => group.GroupID))) ∧
        (∀ k ∈ tGroupIDs, k ∉ groups.map (fun group => group.GroupID) → m k = some 0) ∧
        (∀ (k : Int) (v : Int), lastValue groups k = some v → m k = some v)) ∧
    (∀ (unmarshal : Bytes → Except String (List (testGroupInfo (List Int))))
        (tomlContent : Bytes) (tGroupIDs : List Int) (groups : List (testGroupInfo (List Int))),
      unmarshal tomlContent = .ok groups →
      ∃ m, readTGroupTestIDs cmp unmarshal specVers tomlContent tGroupIDs = .ok m ∧
        (∀ k : Int, m k ≠ none ↔
          (k ∈ tGroupIDs ∨ k ∈ groups.map (fun group => group.GroupID))) ∧
        (∀ k ∈ tGroupIDs, k ∉ groups.map (fun group => group.GroupID) → m k = some []) ∧
        (∀ (k : Int) (v : List Int), lastValue groups k = some v → m k = some v)) := by
  have hr' : ¬ r < 0 := by omega
  refine ⟨?_, ?_, ?_⟩
  · intro unmarshal tomlContent tGroupIDs groups hdec
    have e : readTGroupFnames cmp unmarshal specVers tomlContent tGroupIDs
        = .ok (groups.foldl
            (fun res group =>
              if res.has group.GroupID then res.set group.GroupID group.Value else res)
            (seedMap tGroupIDs [])) := by
      simp only [readTGroupFnames, hcmp, hdec]
      rw [if_neg hr']
    refine ⟨_, e, ?_, ?_, ?_⟩
    · intro k
      rw [foldGuard_apply, seedMap_apply]
      by_cases c : k ∈ tGroupIDs
      · cases lastValue groups k <;> simp [c]
      · simp [c]
    · intro k hk hno
      rw [foldGuard_apply, seedMap_apply, (lastValue_eq_none groups k).2 hno]
      simp [hk]
    · intro k hk v hv
      rw [foldGuard_apply, seedMap_apply, hv]
      simp [hk]
  · intro unmarshal tomlContent tGroupIDs groups hdec
    have e : readTGroupPoints cmp unmarshal specVers tomlContent tGroupIDs
        = .ok (groups.foldl (fun res group => res.set group.GroupID group.Value)
            (seedMap tGroupIDs 0)) := by
      simp only [readTGroupPoints, hcmp, hdec]
      rw [if_neg hr']
    refine ⟨_, e, ?_, ?_, ?_⟩
    · intro k
      have hl := lastValue_eq_none groups k
      rw [foldSet_apply, seedMap_apply]
      cases h : lastValue groups k with
      | none =>
        have := hl.1 h
        by_cases c : k ∈ tGroupIDs <;> simp [c, this]
      | some v =>
        have : k ∈ groups.map (fun group => group.GroupID) := by
          by_contra hc
          rw [hl.2 hc] at h
          exact absurd h (by simp)
        simp [this]
    · intro k hk hno
      rw [foldSet_apply, seedMap_apply, (lastValue_eq_none groups k).2 hno]
      simp [hk]
    · intro k v hv
      rw [foldSet_apply, hv]
  · intro unmarshal tomlContent tGroupIDs groups hdec
    have e : readTGroupTestIDs cmp unmarshal specVers tomlContent tGroupIDs
        = .ok (groups.foldl (fun res group => res.set group.GroupID group.Value)
            (seedMap tGroupIDs [])) := by
      simp only [readTGroupTestIDs, hcmp, hdec]
      rw [if_neg hr']
    refine ⟨_, e, ?_, ?_, ?_⟩
    · intro k
      have hl := lastValue_eq_none groups k
      rw [foldSet_apply, seedMap_apply]
      cases h : lastValue groups k with
      | none =>
        have := hl.1 h
        by_cases c : k ∈ tGroupIDs <;> simp [c, this]
      | some v =>
        have : k ∈ groups.map (fun group => group.GroupID) := by
          by_contra hc
          rw [hl.2 hc] at h
          exact absurd h (by simp)
        simp [this]
    · intro k hk hno
      rw [foldSet_apply, seedMap_apply, (lastValue_eq_none groups k).2 hno]
      simp [hk]
    · intro k v hv
      rw [foldSet_apply, hv]

/-- C18 (amended) at a concrete input: at `v2.3.0`, with the declared groups 1
and 2 and a manifest that decodes to filenames for group 1 and for the
undeclared group 7, the result of `readTGroupFnames` has a key exactly for the
groups 1 and 2. -/
theorem readers_key_sets_witness :
    getCmpSemVersionsResult "v2.3.0" "v2.2.0" = .ok 1 ∧ (0 : Int) ≤ 1 ∧
    ∃ m, readTGroupFnames getCmpSemVersionsResult (decodesTo [⟨1, ["a"]⟩, ⟨7, ["b"]⟩])
        "v2.3.0" [] [1, 2] = .ok m ∧
      (∀ k : Int, m k ≠ none ↔ k ∈ [1, 2]) :=
  ⟨getCmpSemVersionsResult_v230, by decide,
    ((readers_key_sets getCmpSemVersionsResult "v2.3.0" 1 getCmpSemVersionsResult_v230
      (by decide)).1 (decodesTo [⟨1, ["a"]⟩, ⟨7, ["b"]⟩]) [] [1, 2]
      [⟨1, ["a"]⟩, ⟨7, ["b"]⟩] rfl).imp (fun _ h => ⟨h.1, h.2.1⟩)⟩

/-! ## Facts about the test files of `Store` -/

/-- Two lists with the same image under a function that is injective on their
elements are equal. -/
theorem map_eq_of_injOn {α β : Type} (f : α → β) (l₁ l₂ : List α)
    (h : l₁.map f = l₂.map f)
    (hinj : ∀ x ∈ l₁, ∀ y ∈ l₂, f x = f y → x = y) : l₁ = l₂ := by
  induction l₁ generalizing l₂ with
  | nil =>
    cases l₂ with
    | nil => rfl
    | cons y ys => simp at h
  | cons x xs ih =>
    cases l₂ with
    | nil => simp at h
    | cons y ys =>
      simp only [List.map_cons, List.cons.injEq] at h
      have hxy := hinj x (List.mem_cons_self _ _) y (List.mem_cons_self _ _) h.1
      have := ih ys h.2 (fun a ha b hb =>
        hinj a (List.mem_cons_of_mem _ ha) b (List.mem_cons_of_mem _ hb))
      rw [hxy, this]

theorem digitChar_injOn :
    ∀ a < 10, ∀ b < 10, Nat.digitChar a = Nat.digitChar b → a = b := by
  decide

theorem ofDigits_replicate_zero (k : Nat) : Nat.ofDigits 10 (List.replicate k 0) = 0 := by
  induction k with
  | zero => rfl
  | succ k ih => simp [List.replicate_succ, Nat.ofDigits_cons, ih]

/-- The digits that `sprintf03d` prints, read as a decimal number, give the
number back. -/
theorem ofDigits_padded (n k : Nat) :
    Nat.ofDigits 10 ((List.replicate k 0 ++ (Nat.digits 10 n).reverse).reverse) = n := by
  rw [List.reverse_append, List.reverse_reverse, List.reverse_replicate, Nat.ofDigits_append,
    Nat.ofDigits_digits, ofDigits_replicate_zero]
  simp

/-- Different numbers are printed differently by `%03d`. -/
theorem sprintf03d_injective (n m : Nat) (h : sprintf03d n = sprintf03d m) : n = m := by
  unfold sprintf03d at h
  have hl := congrArg String.data h
  simp only at hl
  have hlt : ∀ (a k : Nat), ∀ x ∈ List.replicate k 0 ++ (Nat.digits 10 a).reverse, x < 10 := by
    intro a k x hx
    rcases List.mem_append.1 hx with e | e
    · rw [(List.mem_replicate.1 e).2]; decide
    · exact Nat.digits_lt_base (by decide) (List.mem_reverse.1 e)
  have heq := map_eq_of_injOn Nat.digitChar _ _ hl
    (fun x hx y hy => digitChar_injOn x (hlt n _ x hx) y (hlt m _ y hy))
  have := congrArg (fun l => Nat.ofDigits 10 l.reverse) heq
  simpa only [ofDigits_padded] using this

/-- Appending the same extension to two strings keeps them apart. -/
theorem append_right_cancel (a b ext : String) (h : a ++ ext = b ++ ext) : a = b := by
  have := congrArg String.data h
  rw [String.data_append, String.data_append] at this
  exact String.ext (List.append_cancel_right this)

/-- The writes of the loop of `Store`, by direct position: the test at
position `j` of the remaining tests is written under the names of index
`i + j`, first its input, then its answer. -/
theorem storeLoop_getElem? (join : String → String → String) (dir : String) (i : Nat)
    (tests : List test) (j : Nat) (t : test) (h : tests[j]? = some t) :
    (storeLoop join dir i tests)[2 * j]?
      = some (join dir (storeFileNames (i + j) t).1, t.Input) ∧
    (storeLoop join dir i tests)[2 * j + 1]?
      = some (join dir (storeFileNames (i + j) t).2, t.Answer) := by
  induction tests generalizing i j with
  | nil => simp at h
  | cons x xs ih =>
    cases j with
    | zero =>
      simp only [List.getElem?_cons_zero, Option.some.injEq] at h
      subst h
      simp [storeLoop]
    | succ j =>
      simp only [List.getElem?_cons_succ] at h
      have := ih (i + 1) j h
      have e1 : 2 * (j + 1) = (2 * j + 1) + 1 := by ring
      have e2 : 2 * (j + 1) + 1 = (2 * j + 1 + 1) + 1 := by ring
      have e3 : i + 1 + j = i + (j + 1) := by ring
      rw [e2, e1]
      simp only [storeLoop, List.getElem?_cons_succ]
      rw [← e3]
      exact this

/-- The loop of `Store` makes two writes per test. -/
theorem storeLoop_length (join : String → String → String) (dir : String) (i : Nat)
    (tests : List test) : (storeLoop join dir i tests).length = 2 * tests.length := by
  induction tests generalizing i with
  | nil => rfl
  | cons x xs ih => simp [storeLoop, ih]; ring

/-- Tests at different positions do not carry the same name when the names, in
the order of the tests, are pairwise distinct. -/
theorem name_index_unique (tests : List test)
    (hn : (tests.filterMap (fun t => t.Name)).Nodup) (i j : Nat) (t u : test) (a : String)
    (hi : tests[i]? = some t) (hj : tests[j]? = some u)
    (ht : t.Name = some a) (hu : u.Name = some a) : i = j := by
  induction tests generalizing i j with
  | nil => simp at hi
  | cons x xs ih =>
    have hmem : ∀ (k : Nat) (w : test), xs[k]? = some w → w.Name = some a →
        a ∈ xs.filterMap (fun t => t.Name) := by
      intro k w hk hw
      exact List.mem_filterMap.2 ⟨w, List.getElem?_mem hk, hw⟩
    cases i with
    | zero =>
      cases j with
      | zero => rfl
      | succ j =>
        simp only [List.getElem?_cons_zero, Option.some.injEq] at hi
        simp only [List.getElem?_cons_succ] at hj
        subst hi
        rw [List.filterMap_cons_some ht, List.nodup_cons] at hn
        exact absurd (hmem j u hj hu) hn.1
    | succ i =>
      cases j with
      | zero =>
        simp only [List.getElem?_cons_zero, Option.some.injEq] at hj
        simp only [List.getElem?_cons_succ] at hi
        subst hj
        rw [List.filterMap_cons_some hu, List.nodup_cons] at hn
        exact absurd (hmem i t hi ht) hn.1
      | succ j =>
        simp only [List.getElem?_cons_succ] at hi hj
        have hn' : (xs.filterMap (fun t => t.Name)).Nodup := by
          cases hx : x.Name with
          | none => rw [List.filterMap_cons_none hx] at hn; exact hn
          | some b => rw [List.filterMap_cons_some hx, List.nodup_cons] at hn; exact hn.2
        rw [ih hn' i j hi hj]

theorem sprintf03d_one : sprintf03d 1 = "001" := by
  simp [sprintf03d]
  rfl

theorem sprintf03d_two : sprintf03d 2 = "002" := by
  simp [sprintf03d]
  rfl

/-- C16 (evaluation at the failing input): for the task built by one `AddTest`
and `AssignFilenameToTest("foo", 1)`, `GetTestFilenameFromID(1)` is `foo`, but
`Store` writes the test to `001.in` and `001.out`: it reads the field `Name` of
the test, which `AssignFilenameToTest` does not set. -/
theorem Store_ignores_assigned_filename (join : String → String → String)
    (dirPath : String) (input answer : Bytes) :
    ∃ t, AssignFilenameToTest (AddTest Task.empty input answer).2 "foo" 1 = some t ∧
      GetTestFilenameFromID t 1 = "foo" ∧
      t.tests = [{ ID := 1, Input := input, Answer := answer, Name := none }] ∧
      storeTestWrites join t dirPath
        = [(join (join dirPath "tests") "001.in", input),
           (join (join dirPath "tests") "001.out", answer)] := by
  have hm : mexLoop ([] : List Int) 1 = 1 := by simp [mexLoop_eq, scanPass]
  have ha : (AddTest Task.empty input answer).2
      = { Task.empty with
          tests := [{ ID := 1, Input := input, Answer := answer, Name := none }] } := by
    simp [AddTest, Task.testIDs, Task.empty, hm]
  refine ⟨{ Task.empty with
      tests := [{ ID := 1, Input := input, Answer := answer, Name := none }]
      testIDToFilename := GoMap.empty.set 1 "foo"
      testFilenameToID := GoMap.empty.set "foo" 1 }, ?_, ?_, rfl, ?_⟩
  · rw [ha]
    simp [AssignFilenameToTest, GoMap.has, Task.empty, GoMap.empty]
  · simp [GetTestFilenameFromID, GoMap.set_apply]
  · simp [storeTestWrites, storeLoop, storeFileNames, sprintf03d_one]

/-- What `Store` does write for the test at position `j + 1`: its input and its
answer, under the field `Name` of the test with `.in` and `.out` appended if
the field is set, and under the position printed by `%03d` otherwise. -/
theorem storeTestWrites_at (join : String → String → String) (t : Task)
    (dirPath : String) (j : Nat) (x : test) (h : t.tests[j]? = some x) :
    (storeTestWrites join t dirPath).length = 2 * t.tests.length ∧
    (storeTestWrites join t dirPath)[2 * j]?
      = some (join (join dirPath "tests")
          (match x.Name with
            | some name => name ++ ".in"
            | none => sprintf03d (j + 1) ++ ".in"), x.Input) ∧
    (storeTestWrites join t dirPath)[2 * j + 1]?
      = some (join (join dirPath "tests")
          (match x.Name with
            | some name => name ++ ".out"
            | none => sprintf03d (j + 1) ++ ".out"), x.Answer) := by
  have := storeLoop_getElem? join (join dirPath "tests") 0 t.tests j x h
  rw [Nat.zero_add] at this
  refine ⟨storeLoop_length _ _ _ _, ?_, ?_⟩
  · rw [storeTestWrites, this.1]
    cases hx : x.Name <;> simp [storeFileNames, hx]
  · rw [storeTestWrites, this.2]
    cases hx : x.Name <;> simp [storeFileNames, hx]

/-- C20 (as stated, refuted): in the task whose first test carries the name
`002` and whose second test carries none, no two tests carry the same name, yet
`Store` writes both tests to `002.in` and `002.out`. -/
theorem Store_paths_collide :
    (collidingTask.tests.filterMap (fun t => t.Name)).Nodup ∧
    (storeTestWrites joinSlash collidingTask "out").map Prod.fst
      = ["out/tests/002.in", "out/tests/002.out", "out/tests/002.in", "out/tests/002.out"] := by
  refine ⟨by decide, ?_⟩
  simp [storeTestWrites, storeLoop, storeFileNames, collidingTask, Task.empty, sprintf03d_two]
  refine ⟨?_, ?_, ?_, ?_⟩ <;> rfl

/-- C20 (amended): if the names of the tests are pairwise distinct and no name
equals the position, printed by `%03d`, of a test without name, then the file
names `Store` hands to `filepath.Join` for tests at different positions differ,
for the input files and for the answer files; so do the paths of the writes,
for every `join` that keeps different file names of the task apart. -/
theorem Store_names_distinct (t : Task)
    (hnames : (t.tests.filterMap (fun x => x.Name)).Nodup)
    (hpos : ∀ (j : Nat) (u : test), t.tests[j]? = some u → u.Name = none →
      sprintf03d (j + 1) ∉ t.tests.filterMap (fun x => x.Name)) :
    (∀ (i j : Nat) (x u : test), i ≠ j → t.tests[i]? = some x → t.tests[j]? = some u →
      (storeFileNames i x).1 ≠ (storeFileNames j u).1 ∧
      (storeFileNames i x).2 ≠ (storeFileNames j u).2) ∧
    (∀ (join : String → String → String) (dirPath : String),
      (∀ (i j : Nat) (x u : test), t.tests[i]? = some x → t.tests[j]? = some u →
        (join (join dirPath "tests") (storeFileNames i x).1
            = join (join dirPath "tests") (storeFileNames j u).1 →
          (storeFileNames i x).1 = (storeFileNames j u).1) ∧
        (join (join dirPath "tests") (storeFileNames i x).2
            = join (join dirPath "tests") (storeFileNames j u).2 →
          (storeFileNames i x).2 = (storeFileNames j u).2)) →
      ∀ i j : Nat, i ≠ j → i < t.tests.length → j < t.tests.length →
        ((storeTestWrites join t dirPath)[2 * i]?).map Prod.fst
          ≠ ((storeTestWrites join t dirPath)[2 * j]?).map Prod.fst ∧
        ((storeTestWrites join t dirPath)[2 * i + 1]?).map Prod.fst
          ≠ ((storeTestWrites join t dirPath)[2 * j + 1]?).map Prod.fst) := by
  have hname : ∀ (i j : Nat) (x u : test), i ≠ j → t.tests[i]? = some x →
      t.tests[j]? = some u →
      (storeFileNames i x).1 ≠ (storeFileNames j u).1 ∧
      (storeFileNames i x).2 ≠ (storeFileNames j u).2 := by
    intro i j x u hij hi hj
    have key : ∀ ext : String,
        (match x.Name with
          | some name => name ++ ext
          | none => sprintf03d (i + 1) ++ ext)
        ≠ (match u.Name with
          | some name => name ++ ext
          | none => sprintf03d (j + 1) ++ ext) := by
      intro ext he
      cases hx : x.Name with
      | some a =>
        cases hu : u.Name with
        | some b =>
          rw [hx, hu] at he
          have hab := append_right_cancel _ _ _ he
          exact hij (name_index_unique t.tests hnames i j x u a hi hj hx (hab ▸ hu))
        | none =>
          rw [hx, hu] at he
          have hab := append_right_cancel _ _ _ he
          apply hpos j u hj hu
          rw [← hab]
          exact List.mem_filterMap.2 ⟨x, List.getElem?_mem hi, hx⟩
      | none =>
        cases hu : u.Name with
        | some b =>
          rw [hx, hu] at he
          have hab := append_right_cancel _ _ _ he
          apply hpos i x hi hx
          rw [hab]
          exact List.mem_filterMap.2 ⟨u, List.getElem?_mem hj, hu⟩
        | none =>
          rw [hx, hu] at he
          have hab := sprintf03d_injective _ _ (append_right_cancel _ _ _ he)
          exact hij (by omega)
    constructor
    · have := key ".in"
      cases hx : x.Name <;> cases hu : u.Name <;> simpa [storeFileNames, hx, hu] using this
    · have := key ".out"
      cases hx : x.Name <;> cases hu : u.Name <;> simpa [storeFileNames, hx, hu] using this
  refine ⟨hname, ?_⟩
  intro join dirPath hjoin i j hij hi hj
  obtain ⟨x, hx⟩ : ∃ x, t.tests[i]? = some x := ⟨_, List.getElem?_eq_getElem hi⟩
  obtain ⟨u, hu⟩ : ∃ u, t.tests[j]? = some u := ⟨_, List.getElem?_eq_getElem hj⟩
  have wi := storeLoop_getElem? join (join dirPath "tests") 0 t.tests i x hx
  have wj := storeLoop_getElem? join (join dirPath "tests") 0 t.tests j u hu
  rw [Nat.zero_add] at wi wj
  have hn := hname i j x u hij hx hu
  have hj' := hjoin i j x u hx hu
  simp only [storeTestWrites, wi.1, wi.2, wj.1, wj.2, Option.map_some', ne_eq,
    Option.some.injEq]
  exact ⟨fun e => hn.1 (hj'.1 e), fun e => hn.2 (hj'.2 e)⟩

/-- C20 (amended) at a concrete input: in the task whose first test is named
`a` and whose second test has no name, the two conditions hold and the input
files of the two tests get different names. -/
theorem Store_names_distinct_witness :
    (oneNamedTask.tests.filterMap (fun x => x.Name)).Nodup ∧
    (storeFileNames 0 ⟨1, [10], [11], some "a"⟩).1
      ≠ (storeFileNames 1 ⟨2, [20], [21], none⟩).1 :=
  ⟨by decide,
    ((Store_names_distinct oneNamedTask (by decide)
      (by
        intro j u hj hu
        have hlen : j < 2 := by
          by_contra hc
          have : oneNamedTask.tests[j]? = none :=
            List.getElem?_eq_none (by simpa [oneNamedTask] using hc)
          rw [this] at hj
          exact absurd hj (by simp)
        interval_cases j
        · simp [oneNamedTask] at hj
          subst hj
          simp at hu
        · simp [oneNamedTask, sprintf03d_two])).1 0 1 _ _ (by decide) rfl rfl).1⟩

/-! ## Facts about sorting and about the number of passes -/

/-- Cut off after more runs than there are distinct pending identifiers, the
outer loop has stopped with the result of `mexLoop`. -/
theorem mexLoopFuel_of_pending (ids : List Int) (n : Nat) (mex : Int)
    (h : pending ids.dedup mex ≤ n) :
    mexLoopFuel (n + 1) ids mex = some (mexLoop ids mex) := by
  induction n generalizing mex with
  | zero =>
    rw [mexLoop_eq]
    unfold mexLoopFuel
    by_cases hf : (scanPass ids false mex).1 = true
    · rcases scanPass_found ids false mex hf with c | ⟨x, hx, h1, h2⟩
      · exact absurd c (by decide)
      · have := pending_lt ids.dedup mex _ ⟨x, List.mem_dedup.2 hx, h1, h2⟩
        omega
    · simp [hf]
  | succ n ih =>
    rw [mexLoop_eq]
    unfold mexLoopFuel
    by_cases hf : (scanPass ids false mex).1 = true
    · rcases scanPass_found ids false mex hf with c | ⟨x, hx, h1, h2⟩
      · exact absurd c (by decide)
      · have := pending_lt ids.dedup mex _ ⟨x, List.mem_dedup.2 hx, h1, h2⟩
        rw [if_pos hf, if_pos hf]
        exact ih _ (by omega)
    · simp [hf]

/-- Further runs change nothing once the loop has stopped. -/
theorem mexLoopFuel_mono (ids : List Int) (n m : Nat) (mex r : Int) (hnm : n ≤ m)
    (h : mexLoopFuel n ids mex = some r) : mexLoopFuel m ids mex = some r := by
  induction n generalizing m mex with
  | zero => simp [mexLoopFuel] at h
  | succ n ih =>
    obtain ⟨m', rfl⟩ : ∃ m', m = m' + 1 := ⟨m - 1, by omega⟩
    unfold mexLoopFuel at h ⊢
    by_cases hf : (scanPass ids false mex).1 = true
    · rw [if_pos hf] at h ⊢
      exact ih m' _ (by omega) h
    · rw [if_neg hf] at h ⊢
      exact h

theorem pending_dedup_one (ids : List Int) : pending ids.dedup 1 = distinctPositive ids := by
  unfold pending distinctPositive
  rw [List.countP_eq_length_filter]
  congr 2

/-- The insertion sort by ID returns a rearrangement of the tests that is
ascending in the IDs. -/
theorem sortedByID_facts (l : List test) :
    (l.insertionSort (fun a b => a.ID ≤ b.ID)).Perm l ∧
    ((l.insertionSort (fun a b => a.ID ≤ b.ID)).map (fun x => x.ID)).Sorted
      (fun a b => a ≤ b) := by
  haveI : IsTotal test (fun a b => a.ID ≤ b.ID) := ⟨fun a b => le_total a.ID b.ID⟩
  haveI : IsTrans test (fun a b => a.ID ≤ b.ID) := ⟨fun a b c h1 h2 => le_trans h1 h2⟩
  refine ⟨List.perm_insertionSort _ l, ?_⟩
  have hs := List.sorted_insertionSort (fun a b : test => a.ID ≤ b.ID) l
  exact List.pairwise_map.2 hs

/-- C17: on a task whose test IDs are pairwise distinct, `GetTestsSortedByID`
returns the tests in strictly ascending order of ID; the returned sequence is a
rearrangement of the stored tests (every test with its ID, Input and Answer,
none added or dropped) and the only one that is ascending; afterwards the
stored test sequence is the returned one and every other field of the task is
as before.  A call of `GetInfoOnTestGroup`, of `GetTestGroupIDs` or of
`GetTestFilenameFromID` leaves the task as it was. -/
theorem GetTestsSortedByID_spec (t : Task) (h : t.testIDs.Nodup) :
    ((GetTestsSortedByID t).1.map (fun x => x.ID)).Sorted (fun a b => a < b) ∧
    (GetTestsSortedByID t).1.Perm t.tests ∧
    (∀ l : List test, l.Perm t.tests → (l.map (fun x => x.ID)).Sorted (fun a b => a < b) →
      l = (GetTestsSortedByID t).1) ∧
    (GetTestsSortedByID t).2 = { t with tests := (GetTestsSortedByID t).1 } ∧
    (∀ id : Int, (callGetInfoOnTestGroup t id).2 = t) ∧
    (callGetTestGroupIDs t).2 = t ∧
    (∀ id : Int, (callGetTestFilenameFromID t id).2 = t) := by
  obtain ⟨hperm, hsorted⟩ := sortedByID_facts t.tests
  have hnodup : ((t.tests.insertionSort (fun a b => a.ID ≤ b.ID)).map
      (fun x => x.ID)).Nodup := ((hperm.map _).nodup_iff).2 h
  have hlt := List.Sorted.lt_of_le hsorted hnodup
  refine ⟨hlt, hperm, ?_, rfl, fun _ => rfl, rfl, fun _ => rfl⟩
  intro l hl hls
  have hp : (l.map (fun x => x.ID)).Perm
      ((t.tests.insertionSort (fun a b => a.ID ≤ b.ID)).map (fun x => x.ID)) :=
    (hl.trans hperm.symm).map _
  have hids := List.eq_of_perm_of_sorted hp hls hlt
  apply map_eq_of_injOn (fun x : test => x.ID) _ _ hids
  intro x hx y hy hxy
  exact List.inj_on_of_nodup_map h (hl.subset hx) (hperm.subset hy) hxy

/-- C17 at a concrete input: the tests with the IDs 3, 1, 2 are returned in the
order 1, 2, 3. -/
theorem GetTestsSortedByID_spec_witness :
    ({ Task.empty with tests := [bareTest 3, bareTest 1, bareTest 2] } : Task).testIDs.Nodup ∧
    ((GetTestsSortedByID
      { Task.empty with tests := [bareTest 3, bareTest 1, bareTest 2] }).1.map
        (fun x => x.ID)).Sorted (fun a b => a < b) :=
  ⟨by decide,
    (GetTestsSortedByID_spec { Task.empty with tests := [bareTest 3, bareTest 1, bareTest 2] }
      (by decide)).1⟩

/-- C19: for every list of IDs the outer loop of `AddTest` and of
`testGroupMexPositiveID` has stopped after at most one run of the inner loop
more than the list has distinct positive elements, with the value the total
function `mexLoop` returns; so `AddTest` and `testGroupMexPositiveID` return on
every task, within that number of passes over the test IDs and over the group
IDs.  The bound is attained: for the IDs 3, 3, 2, 1, 0, -4, with three distinct
positive values, three passes do not suffice and four do. -/
theorem mexLoop_passes_bounded (ids : List Int) :
    mexLoopFuel (distinctPositive ids + 1) ids 1 = some (mexLoop ids 1) ∧
    (∀ passes : Nat, distinctPositive ids + 1 ≤ passes →
      mexLoopFuel passes ids 1 = some (mexLoop ids 1)) ∧
    (∀ (t : Task) (input answer : Bytes),
      mexLoopFuel (distinctPositive t.testIDs + 1) t.testIDs 1
        = some (AddTest t input answer).1) ∧
    (∀ t : Task,
      mexLoopFuel (distinctPositive t.testGroupIDs + 1) t.testGroupIDs 1
        = some (testGroupMexPositiveID t)) ∧
    (distinctPositive [3, 3, 2, 1, 0, -4] = 3 ∧
      mexLoopFuel 3 [3, 3, 2, 1, 0, -4] 1 = none ∧
      mexLoopFuel 4 [3, 3, 2, 1, 0, -4] 1 = some 4) := by
  have base : ∀ l : List Int,
      mexLoopFuel (distinctPositive l + 1) l 1 = some (mexLoop l 1) := by
    intro l
    exact mexLoopFuel_of_pending l _ 1 (le_of_eq (pending_dedup_one l))
  refine ⟨base ids, ?_, ?_, ?_, by decide⟩
  · intro passes hp
    exact mexLoopFuel_mono ids _ passes 1 _ hp (base ids)
  · intro t input answer
    exact base t.testIDs
  · intro t
    exact base t.testGroupIDs

/-! ## Facts about the group lists in memory -/

/-- The inner loop, cell by cell. -/
theorem relabelFrom_getElem? (id1 id2 : Int) (s : intSlice) (i : Nat) (cells : List Int)
    (j : Nat) :
    (relabelFrom id1 id2 s i cells)[j]?
      = (cells[j]?).map (fun v =>
          if s.offset ≤ i + j ∧ i + j < s.offset + s.length then swapID id1 id2 v else v) := by
  induction cells generalizing i j with
  | nil => simp [relabelFrom]
  | cons v vs ih =>
    cases j with
    | zero => simp [relabelFrom]
    | succ j =>
      simp only [relabelFrom, List.getElem?_cons_succ]
      rw [ih]
      have e : i + 1 + j = i + (j + 1) := by omega
      rw [e]

/-- After the inner loop has run at a slice, the slice holds its old elements
relabelled. -/
theorem read_relabelFrom (id1 id2 : Int) (s : intSlice) (cells : List Int) :
    ((relabelFrom id1 id2 s 0 cells).drop s.offset).take s.length
      = ((cells.drop s.offset).take s.length).map (swapID id1 id2) := by
  apply List.ext_getElem?
  intro j
  rw [List.getElem?_map, List.getElem?_take, List.getElem?_take]
  by_cases hj : j < s.length
  · rw [if_pos hj, if_pos hj, List.getElem?_drop, List.getElem?_drop, relabelFrom_getElem?]
    have hw : s.offset ≤ 0 + (s.offset + j) ∧ 0 + (s.offset + j) < s.offset + s.length := by
      omega
    simp only [hw, and_self, if_true]
  · rw [if_neg hj, if_neg hj]
    rfl

/-- The outer loop leaves an array alone that no entry refers to. -/
theorem foldl_writeSlice_other (id1 id2 : Int) (ps : List (Int × intSlice))
    (arrays : Nat → List Int) (a : Nat) (h : ∀ p ∈ ps, p.2.array ≠ a) :
    (ps.foldl (fun arrays p => writeSlice id1 id2 arrays p.2) arrays) a = arrays a := by
  induction ps generalizing arrays with
  | nil => rfl
  | cons q qs ih =>
    rw [List.foldl_cons, ih _ (fun p hp => h p (List.mem_cons_of_mem _ hp))]
    have := h q (List.mem_cons_self _ _)
    simp [writeSlice, Ne.symm this]

/-- When no two entries share an array, the outer loop runs the inner loop
exactly once at the array of every entry. -/
theorem foldl_writeSlice_own (id1 id2 : Int) (ps : List (Int × intSlice))
    (arrays : Nat → List Int) (hn : (ps.map (fun p => p.2.array)).Nodup)
    (p : Int × intSlice) (hp : p ∈ ps) :
    (ps.foldl (fun arrays p => writeSlice id1 id2 arrays p.2) arrays) p.2.array
      = relabelFrom id1 id2 p.2 0 (arrays p.2.array) := by
  induction ps generalizing arrays with
  | nil => simp at hp
  | cons q qs ih =>
    simp only [List.map_cons, List.nodup_cons, List.mem_map, not_exists, not_and] at hn
    rw [List.foldl_cons]
    rcases List.mem_cons.1 hp with e | e
    · subst e
      rw [foldl_writeSlice_other id1 id2 qs _ _ (fun r hr c => hn.1 r hr c)]
      simp [writeSlice]
    · rw [ih _ hn.2 e]
      have hne : p.2.array ≠ q.2.array := fun c => hn.1 p e c
      simp [writeSlice, hne]

theorem mem_of_lookup {k : Int} {s : intSlice} :
    ∀ {ps : List (Int × intSlice)}, ps.lookup k = some s → (k, s) ∈ ps
  | [], h => by simp at h
  | (k', s') :: ps, h => by
    rw [List.lookup_cons] at h
    by_cases c : k = k'
    · subst c
      simp only [beq_self_eq_true, Option.some.injEq] at h
      subst h
      exact List.mem_cons_self _ _
    · have : (k == k') = false := by simpa using c
      rw [this] at h
      exact List.mem_cons_of_mem _ (mem_of_lookup h)

/-- When no two entries share an array, the memory after the loop holds, for
every key, the old list of that key relabelled: the loop on memory and the
relabelling of the lists as values agree. -/
theorem swapGroupLoop_view (id1 id2 : Int) (g : GroupMemory) (hun : g.Unshared) (k : Int) :
    (swapGroupLoop id1 id2 g).view k = (g.view k).map (List.map (swapID id1 id2)) := by
  unfold GroupMemory.view
  have hs : (swapGroupLoop id1 id2 g).slices = g.slices := rfl
  rw [hs]
  cases h : g.slices.lookup k with
  | none => rfl
  | some s =>
    simp only [Option.map_some', Option.some.injEq, intSlice.read]
    have := foldl_writeSlice_own id1 id2 g.slices g.arrays hun (k, s) (mem_of_lookup h)
    simp only [swapGroupLoop]
    rw [this]
    exact read_relabelFrom id1 id2 s _

/-- When no two entries share an array, `SwapTestsWithIDs` on the lists as
values is `SwapTestsWithIDs` on the lists in memory. -/
theorem SwapTestsWithIDsMem_eq (t : Task) (g : GroupMemory) (id1 id2 : Int)
    (hview : t.tGroupTestIDs = g.view) (hun : g.Unshared) :
    (SwapTestsWithIDsMem t g id1 id2).1 = SwapTestsWithIDs t id1 id2 := by
  have : (swapGroupLoop id1 id2 g).view = (SwapTestsWithIDs t id1 id2).tGroupTestIDs := by
    funext k
    rw [swapGroupLoop_view id1 id2 g hun k, SwapTestsWithIDs_groups, hview]
  simp only [SwapTestsWithIDsMem, this]

theorem sharedTask_view : sharedTask.tGroupTestIDs = sharedMemory.view := by
  funext k
  have e : sharedTask.tGroupTestIDs k
      = if k = 2 then some [1, 2] else if k = 1 then some [1, 2] else none := by
    simp [sharedTask, AddTestGroupWithID, testGroupWithIDExists, Task.empty, GoMap.set_apply,
      GoMap.empty]
  rw [e]
  by_cases c2 : k = 2
  · subst c2; rfl
  · by_cases c1 : k = 1
    · subst c1; rfl
    · have b1 : (k == 1) = false := by simpa using c1
      have b2 : (k == 2) = false := by simpa using c2
      simp [GroupMemory.view, sharedMemory, List.lookup_cons, c1, c2, b1, b2]

theorem namedTask_view : namedTask.tGroupTestIDs = namedMemory.view := by
  funext k
  by_cases c1 : k = 1
  · subst c1; rfl
  · have b1 : (k == 1) = false := by simpa using c1
    simp [GroupMemory.view, namedMemory, namedTask, List.lookup_cons, GoMap.set_apply,
      GoMap.empty, c1, b1]

/-- C3 (as stated, refuted): after the slice `[1, 2]` was given to
`AddTestGroupWithID` for the group 1 and for the group 2, the two groups share
one backing array; `SwapTestsWithIDs(1, 2)` relabels the tests to 2, 1 but
runs over the shared array twice and leaves `[1, 2]` as the `TestIDs` of both
groups, where the claim has `[2, 1]`. -/
theorem SwapTestsWithIDs_shared_slice :
    sharedTask.tGroupTestIDs = sharedMemory.view ∧
    (GetInfoOnTestGroup sharedTask 1).TestIDs = [1, 2] ∧
    (SwapTestsWithIDsMem sharedTask sharedMemory 1 2).1.testIDs = [2, 1] ∧
    (GetInfoOnTestGroup (SwapTestsWithIDsMem sharedTask sharedMemory 1 2).1 1).TestIDs
      = [1, 2] ∧
    (GetInfoOnTestGroup (SwapTestsWithIDsMem sharedTask sharedMemory 1 2).1 2).TestIDs
      = [1, 2] ∧
    (GetInfoOnTestGroup (SwapTestsWithIDsMem sharedTask sharedMemory 1 2).1 1).TestIDs[0]?
      ≠ ((GetInfoOnTestGroup sharedTask 1).TestIDs[0]?).map (Equiv.swap 1 2) := by
  have h0 : (GetInfoOnTestGroup sharedTask 1).TestIDs = [1, 2] := by
    simp only [GetInfoOnTestGroup, GoMap.getD, sharedTask_view]
    rfl
  have h1 : (GetInfoOnTestGroup (SwapTestsWithIDsMem sharedTask sharedMemory 1 2).1 1).TestIDs
      = [1, 2] := by
    simp only [GetInfoOnTestGroup, GoMap.getD, SwapTestsWithIDsMem]
    rfl
  have h2 : (GetInfoOnTestGroup (SwapTestsWithIDsMem sharedTask sharedMemory 1 2).1 2).TestIDs
      = [1, 2] := by
    simp only [GetInfoOnTestGroup, GoMap.getD, SwapTestsWithIDsMem]
    rfl
  refine ⟨sharedTask_view, h0, ?_, h1, h2, ?_⟩
  · simp [SwapTestsWithIDsMem, Task.testIDs, SwapTestsWithIDs_tests, sharedTask,
      AddTestGroupWithID, testGroupWithIDExists, Task.empty, bareTest, swapID]
  · rw [h1, h0]
    simp

/-- C3 (amended): for a task whose group lists are held in memory so that no
two groups share a backing array, with `s` the transposition of `id1` and
`id2`, after `SwapTestsWithIDs(id1, id2)` the test sequence has the same length
and the test at each position is the old one with its ID replaced by `s` of it
(Input and Answer kept); the same groups have a `TestIDs` list, each of the
same length and holding at each position `s` of the old value; the list of
group IDs and the points, public flag and subtask of every group are
unchanged. -/
theorem SwapTestsWithIDsMem_relabels (t : Task) (g : GroupMemory) (id1 id2 : Int)
    (hview : t.tGroupTestIDs = g.view) (hun : g.Unshared) :
    (SwapTestsWithIDsMem t g id1 id2).1.tests.length = t.tests.length ∧
    (∀ i : Nat, (SwapTestsWithIDsMem t g id1 id2).1.tests[i]? =
      (t.tests[i]?).map (fun x => { x with ID := Equiv.swap id1 id2 x.ID })) ∧
    (∀ k : Int, ((SwapTestsWithIDsMem t g id1 id2).1.tGroupTestIDs k).isSome
      = (t.tGroupTestIDs k).isSome) ∧
    (∀ k : Int, (GetInfoOnTestGroup (SwapTestsWithIDsMem t g id1 id2).1 k).TestIDs.length
      = (GetInfoOnTestGroup t k).TestIDs.length) ∧
    (∀ (k : Int) (i : Nat),
      (GetInfoOnTestGroup (SwapTestsWithIDsMem t g id1 id2).1 k).TestIDs[i]?
        = ((GetInfoOnTestGroup t k).TestIDs[i]?).map (Equiv.swap id1 id2)) ∧
    (SwapTestsWithIDsMem t g id1 id2).1.testGroupIDs = t.testGroupIDs ∧
    (SwapTestsWithIDsMem t g id1 id2).1.tGroupPoints = t.tGroupPoints ∧
    (SwapTestsWithIDsMem t g id1 id2).1.isTGroupPublic = t.isTGroupPublic ∧
    (SwapTestsWithIDsMem t g id1 id2).1.tGroupToStMap = t.tGroupToStMap ∧
    (SwapTestsWithIDsMem t g id1 id2).1.tGroupTestIDs
      = (SwapTestsWithIDsMem t g id1 id2).2.view ∧
    (SwapTestsWithIDsMem t g id1 id2).2.slices = g.slices := by
  have hv := SwapTestsWithIDs_values_relabel t id1 id2
  rw [← SwapTestsWithIDsMem_eq t g id1 id2 hview hun] at hv
  obtain ⟨a1, a2, a3, a4, a5, a6, a7, a8, a9⟩ := hv
  exact ⟨a1, a2, a3, a4, a5, a6, a7, a8, a9, rfl, rfl⟩

/-- C3 (amended) at a concrete input: in the task whose group 1 holds the list
`[1, 2]` in an array of its own, swapping 1 and 2 turns the first member of the
group into the old one relabelled. -/
theorem SwapTestsWithIDsMem_relabels_witness :
    namedTask.tGroupTestIDs = namedMemory.view ∧ namedMemory.Unshared ∧
    (GetInfoOnTestGroup (SwapTestsWithIDsMem namedTask namedMemory 1 2).1 1).TestIDs[0]?
      = ((GetInfoOnTestGroup namedTask 1).TestIDs[0]?).map (Equiv.swap 1 2) :=
  ⟨namedTask_view, by unfold GroupMemory.Unshared; decide,
    (SwapTestsWithIDsMem_relabels namedTask namedMemory 1 2 namedTask_view
      (by unfold GroupMemory.Unshared; decide)).2.2.2.2.1 1 0⟩

/-- The memory after the inner loop has run at one slice, cell by cell. -/
theorem writeSlice_getElem? (id1 id2 : Int) (arrays : Nat → List Int) (s : intSlice)
    (a i : Nat) :
    (writeSlice id1 id2 arrays s a)[i]?
      = ((arrays a)[i]?).map (fun v =>
          if a = s.array ∧ s.offset ≤ i ∧ i < s.offset + s.length then swapID id1 id2 v
          else v) := by
  unfold writeSlice
  by_cases c : a = s.array
  · rw [if_pos c, relabelFrom_getElem?]
    simp [c]
  · rw [if_neg c]
    simp [c]

theorem iterate_swapID_twice (id1 id2 : Int) (n : Nat) (v : Int) :
    (swapID id1 id2)^[n] ((swapID id1 id2)^[n] v) = v := by
  induction n generalizing v with
  | zero => rfl
  | succ n ih =>
    rw [Function.iterate_succ_apply', Function.iterate_succ_apply, ih, swapID_swapID]

/-- The outer loop, cell by cell: a cell is relabelled once for every entry
whose window contains it. -/
theorem foldl_writeSlice_getElem? (id1 id2 : Int) (ps : List (Int × intSlice))
    (arrays : Nat → List Int) (a i : Nat) :
    ((ps.foldl (fun arrays p => writeSlice id1 id2 arrays p.2) arrays) a)[i]?
      = ((arrays a)[i]?).map
          ((swapID id1 id2)^[ps.countP (fun p =>
            decide (a = p.2.array ∧ p.2.offset ≤ i ∧ i < p.2.offset + p.2.length))]) := by
  induction ps generalizing arrays with
  | nil => simp
  | cons q qs ih =>
    rw [List.foldl_cons, ih, writeSlice_getElem?, List.countP_cons]
    cases (arrays a)[i]? with
    | none => rfl
    | some v =>
      simp only [Option.map_some', Option.some.injEq]
      by_cases c : a = q.2.array ∧ q.2.offset ≤ i ∧ i < q.2.offset + q.2.length
      · simp only [c, and_self, if_true, decide_True]
        rw [Function.iterate_succ_apply]
      · simp only [c, if_false, decide_False]
        rfl

/-- Run twice, the loop over the stored slices restores the memory, whether
group lists share backing arrays or not. -/
theorem swapGroupLoop_twice (id1 id2 : Int) (g : GroupMemory) :
    swapGroupLoop id1 id2 (swapGroupLoop id1 id2 g) = g := by
  have harr : (swapGroupLoop id1 id2 (swapGroupLoop id1 id2 g)).arrays = g.arrays := by
    funext a
    apply List.ext_getElem?
    intro i
    simp only [swapGroupLoop]
    rw [foldl_writeSlice_getElem?, foldl_writeSlice_getElem?]
    cases (g.arrays a)[i]? with
    | none => rfl
    | some v =>
      simp only [Option.map_some', Option.some.injEq]
      exact iterate_swapID_twice id1 id2 _ v
  cases g with
  | mk arrays slices =>
    simp only [swapGroupLoop] at harr ⊢
    rw [harr]

/-- Called twice on group lists held in memory, `SwapTestsWithIDs` restores the
test sequence, the memory and every group list, whether group lists share
backing arrays or not. -/
theorem SwapTestsWithIDsMem_twice (t : Task) (g : GroupMemory) (a b : Int)
    (hview : t.tGroupTestIDs = g.view) :
    (SwapTestsWithIDsMem (SwapTestsWithIDsMem t g a b).1 (SwapTestsWithIDsMem t g a b).2
      a b).1.tests = t.tests ∧
    (SwapTestsWithIDsMem (SwapTestsWithIDsMem t g a b).1 (SwapTestsWithIDsMem t g a b).2
      a b).2 = g ∧
    (SwapTestsWithIDsMem (SwapTestsWithIDsMem t g a b).1 (SwapTestsWithIDsMem t g a b).2
      a b).1.tGroupTestIDs = t.tGroupTestIDs := by
  refine ⟨?_, swapGroupLoop_twice a b g, ?_⟩
  · have h1 : ∀ (u : Task) (m : GroupMemory),
        (SwapTestsWithIDsMem u m a b).1.tests = (SwapTestsWithIDs u a b).tests := fun _ _ => rfl
    rw [h1, SwapTestsWithIDs_tests, h1, SwapTestsWithIDs_tests, List.map_map]
    conv_rhs => rw [← List.map_id t.tests]
    apply List.map_congr_left
    intro x _
    simp [swapID_swapID]
  · show (swapGroupLoop a b (swapGroupLoop a b g)).view = t.tGroupTestIDs
    rw [swapGroupLoop_twice, hview]

end Fstaskparser
